import Mathlib

/-!
Verification of the schedule-analytics engine (express/local classification,
canonical station ordering, travel-time matrices and headway computation)
against its specification.

The Python source is shallowly embedded: GTFS frames (trips, stop_times,
stops) become lists of records, pandas groupby/sort operations become
explicit sorts (pandas sorts are stable, as is insertion sort), clock-time
strings become (hours, minutes, seconds) triples whose hours field may
exceed 23, and float minute values are modelled exactly as rationals.
The coordinate-to-borough polygon classifier is abstracted as a function
parameter (stop id to optional borough), exactly the shape in which the
classification code consumes it.
-/

namespace Subway

/-- A GTFS clock time `HH:MM:SS`; `h` may exceed 23 for post-midnight
service, mirroring un-normalized GTFS time strings. -/
structure GtfsTime where
  h : Nat
  m : Nat
  s : Nat
deriving DecidableEq, Repr

/-- Total elapsed seconds, un-normalized (no modulo 24), as computed by
`parse_gtfs_time` plus the `h*3600 + m*60 + s` conversions in the source. -/
def GtfsTime.seconds (t : GtfsTime) : Nat := t.h * 3600 + t.m * 60 + t.s

/-- Hour-of-day bucket: `int(parts[0]) % 24` in the source. -/
def GtfsTime.hourOfDay (t : GtfsTime) : Nat := t.h % 24

/-- A row of the trips table. -/
structure Trip where
  tripId : String
  routeId : String
  directionId : Nat
  serviceId : String
deriving DecidableEq, Repr

/-- A row of the stop_times table. -/
structure StopTime where
  tripId : String
  stopId : String
  stopSequence : Nat
  arrivalTime : GtfsTime
  departureTime : GtfsTime
deriving DecidableEq, Repr

/-- A row of the stops table. -/
structure Stop where
  stopId : String
  stopName : String
  parentStation : Option String
deriving DecidableEq, Repr

/-- The immutable schedule snapshot (the gtfs_kit feed). -/
structure Feed where
  trips : List Trip
  stopTimes : List StopTime
  stops : List Stop
deriving DecidableEq, Repr

/-! ### String ordering (Python sorts strings by code point) -/

/-- Lexicographic comparison of char lists by code point. -/
def charListLe : List Char → List Char → Bool
  | [], _ => true
  | _ :: _, [] => false
  | c :: cs, d :: ds =>
    if c.toNat < d.toNat then true
    else if d.toNat < c.toNat then false
    else charListLe cs ds

/-- Python string ordering, as a proposition. -/
def strLe (a b : String) : Prop := charListLe a.data b.data = true

instance : DecidableRel strLe := fun a b =>
  inferInstanceAs (Decidable (charListLe a.data b.data = true))

theorem charListLe_total (a b : List Char) :
    charListLe a b = true ∨ charListLe b a = true := by
  induction a generalizing b with
  | nil => left; rfl
  | cons c cs ih =>
    cases b with
    | nil => right; rfl
    | cons d ds =>
      simp only [charListLe]
      rcases Nat.lt_trichotomy c.toNat d.toNat with h | h | h
      · left; simp [h]
      · have h1 : ¬ c.toNat < d.toNat := by omega
        have h2 : ¬ d.toNat < c.toNat := by omega
        rcases ih ds with h3 | h3
        · left; simp [h1, h2, h3]
        · right; simp [h1, h2, h3]
      · right; simp [h, Nat.lt_asymm h]

theorem charListLe_cons_iff (x y : Char) (xs ys : List Char) :
    charListLe (x :: xs) (y :: ys) = true ↔
      (x.toNat < y.toNat ∨ (x.toNat = y.toNat ∧ charListLe xs ys = true)) := by
  simp only [charListLe]
  by_cases h1 : x.toNat < y.toNat
  · simp [h1]
  · by_cases h2 : y.toNat < x.toNat
    · have h3 : ¬ x.toNat = y.toNat := by omega
      simp [h1, h2, h3]
    · have h3 : x.toNat = y.toNat := by omega
      simp [h1, h2, h3]

theorem charListLe_trans (a b c : List Char) (hab : charListLe a b = true)
    (hbc : charListLe b c = true) : charListLe a c = true := by
  induction a generalizing b c with
  | nil => rfl
  | cons x xs ih =>
    cases b with
    | nil => simp [charListLe] at hab
    | cons y ys =>
      cases c with
      | nil => simp [charListLe] at hbc
      | cons z zs =>
        rw [charListLe_cons_iff] at hab hbc ⊢
        rcases hab with h1 | ⟨h1, h1r⟩ <;> rcases hbc with h2 | ⟨h2, h2r⟩
        · exact Or.inl (Nat.lt_trans h1 h2)
        · exact Or.inl (h2 ▸ h1)
        · exact Or.inl (h1 ▸ h2)
        · exact Or.inr ⟨h1.trans h2, ih ys zs h1r h2r⟩

instance : IsTotal String strLe :=
  ⟨fun a b => charListLe_total a.data b.data⟩

instance : IsTrans String strLe :=
  ⟨fun a b c => charListLe_trans a.data b.data c.data⟩

/-- Stable ascending sort of strings (how pandas orders group keys and
Python sorts name lists). -/
def sortStrings (l : List String) : List String := l.insertionSort strLe

/-! ### Generic list utilities mirroring pandas idioms -/

/-- First-occurrence deduplication, preserving order: the semantics of
pandas `unique()` and of a Python dict or seen-set built by iteration. -/
def dedupFirst {α : Type} [DecidableEq α] : List α → List α
  | [] => []
  | x :: xs => x :: (dedupFirst xs).filter (fun y => y ≠ x)

theorem mem_dedupFirst {α : Type} [DecidableEq α] (l : List α) (a : α) :
    a ∈ dedupFirst l ↔ a ∈ l := by
  induction l with
  | nil => simp [dedupFirst]
  | cons x xs ih =>
    simp only [dedupFirst, List.mem_cons, List.mem_filter]
    constructor
    · rintro (rfl | ⟨h1, _⟩)
      · exact Or.inl rfl
      · exact Or.inr (ih.mp h1)
    · rintro (rfl | h1)
      · exact Or.inl rfl
      · by_cases hx : a = x
        · exact Or.inl hx
        · exact Or.inr ⟨ih.mpr h1, by simpa using hx⟩

theorem nodup_dedupFirst {α : Type} [DecidableEq α] (l : List α) :
    (dedupFirst l).Nodup := by
  induction l with
  | nil => simp [dedupFirst]
  | cons x xs ih =>
    simp only [dedupFirst]
    refine List.Nodup.cons ?_ (ih.filter _)
    intro hmem
    have := (List.mem_filter.mp hmem).2
    simp at this

/-- First index attaining the maximum of `key`: the semantics of pandas
`idxmax()` over an index in list order. -/
def argmaxFirst {α : Type} (key : α → Nat) : List α → Option α
  | [] => none
  | x :: xs =>
    match argmaxFirst key xs with
    | none => some x
    | some y => if key x < key y then some y else some x

theorem argmaxFirst_eq_none {α : Type} (key : α → Nat) (l : List α) :
    argmaxFirst key l = none ↔ l = [] := by
  cases l with
  | nil => simp [argmaxFirst]
  | cons x xs =>
    simp only [argmaxFirst]
    cases argmaxFirst key xs with
    | none => simp
    | some y =>
      by_cases hk : key x < key y <;> simp [hk]

theorem argmaxFirst_mem {α : Type} (key : α → Nat) (l : List α) (a : α)
    (h : argmaxFirst key l = some a) : a ∈ l := by
  induction l generalizing a with
  | nil => simp [argmaxFirst] at h
  | cons x xs ih =>
    simp only [argmaxFirst] at h
    cases hrec : argmaxFirst key xs with
    | none =>
      simp only [hrec] at h
      exact List.mem_cons.mpr (Or.inl (Option.some_injective _ h).symm)
    | some y =>
      simp only [hrec] at h
      split at h
      case isTrue hk =>
        have hay : a = y := (Option.some_injective _ h).symm
        subst hay
        exact List.mem_cons.mpr (Or.inr (ih a hrec))
      case isFalse hk =>
        exact List.mem_cons.mpr (Or.inl (Option.some_injective _ h).symm)

theorem argmaxFirst_le {α : Type} (key : α → Nat) (l : List α) (a : α)
    (h : argmaxFirst key l = some a) : ∀ z ∈ l, key z ≤ key a := by
  induction l generalizing a with
  | nil => simp [argmaxFirst] at h
  | cons x xs ih =>
    simp only [argmaxFirst] at h
    cases hrec : argmaxFirst key xs with
    | none =>
      have hxs : xs = [] := (argmaxFirst_eq_none key xs).mp hrec
      simp only [hrec] at h
      have hax : a = x := (Option.some_injective _ h).symm
      subst hax hxs
      intro z hz
      rcases List.mem_cons.mp hz with rfl | hz2
      · exact Nat.le_refl _
      · simp at hz2
    | some y =>
      simp only [hrec] at h
      intro z hz
      split at h
      case isTrue hk =>
        have hay : a = y := (Option.some_injective _ h).symm
        subst hay
        rcases List.mem_cons.mp hz with rfl | hz2
        · exact Nat.le_of_lt hk
        · exact ih a hrec z hz2
      case isFalse hk =>
        have hax : a = x := (Option.some_injective _ h).symm
        subst hax
        rcases List.mem_cons.mp hz with rfl | hz2
        · exact Nat.le_refl _
        · exact Nat.le_trans (ih y hrec z hz2) (Nat.le_of_not_lt hk)

/-! ### Schedule accessors (read-only queries over the feed) -/

/-- Trips filtered by route and direction, in frame order:
the filter in express_local.py. -/
def tripsFor (f : Feed) (route : String) (dir : Nat) : List Trip :=
  f.trips.filter (fun t => t.routeId == route && t.directionId == dir)

/-- Trips filtered by route, direction and service, in frame order:
the three-way filter in travel_times.py and combined_headways.py. -/
def tripsForService (f : Feed) (route : String) (dir : Nat) (service : String) : List Trip :=
  f.trips.filter (fun t =>
    t.routeId == route && t.directionId == dir && t.serviceId == service)

/-- Stop lookup by id: the first matching row of the stops frame. -/
def findStop (f : Feed) (sid : String) : Option Stop :=
  f.stops.find? (fun s => s.stopId == sid)

/-- Display name of a stop, when the stops frame has a row for it. -/
def stopName (f : Feed) (sid : String) : Option String :=
  (findStop f sid).map (fun s => s.stopName)

/-- normalize_stop_id: parent station when present, else the stop itself;
an id absent from the stops frame is returned unchanged. -/
def normalizeStopId (f : Feed) (sid : String) : String :=
  match findStop f sid with
  | none => sid
  | some st =>
    match st.parentStation with
    | none => sid
    | some p => p

/-- Ordering of stop_times rows by stop_sequence. -/
def seqLe (a b : StopTime) : Prop := a.stopSequence ≤ b.stopSequence

instance : DecidableRel seqLe := fun a b =>
  inferInstanceAs (Decidable (a.stopSequence ≤ b.stopSequence))

instance : IsTotal StopTime seqLe := ⟨fun a b => Nat.le_total _ _⟩

instance : IsTrans StopTime seqLe := ⟨fun _ _ _ => Nat.le_trans⟩

/-- The stop_times rows of one trip, in frame order. -/
def tripStopTimesRaw (f : Feed) (tid : String) : List StopTime :=
  f.stopTimes.filter (fun st => st.tripId == tid)

/-- The stop_times rows of one trip sorted by stop_sequence
(`sort_values('stop_sequence')`, a stable sort). -/
def tripStopTimes (f : Feed) (tid : String) : List StopTime :=
  (tripStopTimesRaw f tid).insertionSort seqLe

/-- Number of stop_times rows of a trip (`groupby('trip_id').size()`). -/
def tripStopCount (f : Feed) (tid : String) : Nat :=
  (tripStopTimesRaw f tid).length

/-- Stop ids of a trip, in sequence order. -/
def tripStops (f : Feed) (tid : String) : List String :=
  (tripStopTimes f tid).map (fun st => st.stopId)

/-- Last stop of a trip, by sequence (the terminal). -/
def tripTerminal (f : Feed) (tid : String) : Option String :=
  ((tripStopTimes f tid).getLast?).map (fun st => st.stopId)

/-- First stop of a trip, by sequence (the origin). -/
def tripFirstStop (f : Feed) (tid : String) : Option String :=
  ((tripStopTimes f tid).head?).map (fun st => st.stopId)

/-- Trip ids of a trip set sorted ascending, the key order in which pandas
groupby presents groups of the stop_times frame. -/
def sortedTripIds (ts : List Trip) : List String :=
  (ts.map (fun t => t.tripId)).insertionSort strLe

/-- One row per trip with its terminal stop, in sorted trip-id order:
`stop_times.groupby('trip_id').last()`.  Trips with no stop_times rows do
not appear, exactly as in a pandas groupby. -/
def terminalsLast (f : Feed) (ts : List Trip) : List (String × String) :=
  (sortedTripIds ts).filterMap (fun tid =>
    (tripTerminal f tid).map (fun s => (tid, s)))

/-- One row per trip with its first stop, in sorted trip-id order:
`stop_times.groupby('trip_id').first()`. -/
def terminalsFirst (f : Feed) (ts : List Trip) : List (String × String) :=
  (sortedTripIds ts).filterMap (fun tid =>
    (tripFirstStop f tid).map (fun s => (tid, s)))

/-- Descending-count ordering of value_counts entries. -/
def countDesc (a b : String × Nat) : Prop := b.2 ≤ a.2

instance : DecidableRel countDesc := fun a b =>
  inferInstanceAs (Decidable (b.2 ≤ a.2))

instance : IsTotal (String × Nat) countDesc := ⟨fun a b => Nat.le_total b.2 a.2⟩

instance : IsTrans (String × Nat) countDesc := ⟨fun _ _ _ h1 h2 => Nat.le_trans h2 h1⟩

/-- pandas `value_counts()`: distinct values with their multiplicities,
sorted by descending count; ties keep first-appearance order (stable sort
over the first-appearance listing). -/
def valueCounts (l : List String) : List (String × Nat) :=
  ((dedupFirst l).map (fun v => (v, l.count v))).insertionSort countDesc

/-! ### Express/local classification (express_local.py)

The borough polygons act on float coordinates via shapely; the
classification functions consume only the resulting stop-to-borough
dictionary, so the embedding abstracts that dictionary as a
`String → Option String` parameter (stop id to borough). -/

/-- get_reference_stop_pattern: the stop sequence of the trip with the
most stops among the trips of (route, direction), optionally restricted
to trips ending at a given branch terminal.  Note the source applies no
service filter here. -/
def getReferenceStopPattern (f : Feed) (route : String) (dir : Nat)
    (branchTerminal : Option String) : List String :=
  let trips := tripsFor f route dir
  if trips.isEmpty then []
  else
    let trips2 :=
      match branchTerminal with
      | none => trips
      | some term => trips.filter (fun t => tripTerminal f t.tripId == some term)
    if trips2.isEmpty then []
    else
      match argmaxFirst (tripStopCount f) (sortedTripIds trips2) with
      | none => []
      | some best => tripStops f best

/-- Modelled from the spec for comparison with the code: the reference
pattern the claim describes, drawn from the trips of the full
(route, direction, service) triple, i.e. with the service filter applied
to the reference selection as well. -/
def getReferenceStopPatternSpec (f : Feed) (route : String) (dir : Nat)
    (service : String) (branchTerminal : Option String) : List String :=
  let trips := tripsForService f route dir service
  if trips.isEmpty then []
  else
    let trips2 :=
      match branchTerminal with
      | none => trips
      | some term => trips.filter (fun t => tripTerminal f t.tripId == some term)
    if trips2.isEmpty then []
    else
      match argmaxFirst (tripStopCount f) (sortedTripIds trips2) with
      | none => []
      | some best => tripStops f best

/-- The per-borough decision of classify_trip_express_local, given the
reference stops of the borough and the subset of them the trip makes. -/
def classifyOne (refB tripB : List String) : Option String :=
  if tripB.isEmpty then none
  else if tripB.length = refB.length then some "local"
  else if 2 ≤ tripB.length then some "express"
  else some "local"

/-- classify_trip_express_local: per-borough express/local classification
of one trip against a reference pattern, as an association list in
first-appearance borough order (the iteration order of the defaultdict
built over the reference pattern). -/
def classifyTripExpressLocal (f : Feed) (tid : String) (ref : List String)
    (bmap : String → Option String) : List (String × String) :=
  let tstops := tripStops f tid
  (dedupFirst (ref.filterMap bmap)).filterMap (fun b =>
    let refB := ref.filter (fun s => bmap s == some b)
    let tripB := refB.filter (fun s => tstops.contains s)
    (classifyOne refB tripB).map (fun c => (b, c)))

theorem lookup_filterMap_keys {α : Type} [DecidableEq α] {β : Type}
    (keys : List α) (g : α → Option β) (b : α) (hnd : keys.Nodup) :
    (keys.filterMap (fun k => (g k).map (fun c => (k, c)))).lookup b =
      if b ∈ keys then g b else none := by
  induction keys with
  | nil => simp
  | cons k ks ih =>
    have hk : k ∉ ks := (List.nodup_cons.mp hnd).1
    have hnd2 : ks.Nodup := (List.nodup_cons.mp hnd).2
    cases hg : g k with
    | none =>
      have hstep : (k :: ks).filterMap (fun k => (g k).map (fun c => (k, c))) =
          ks.filterMap (fun k => (g k).map (fun c => (k, c))) := by
        simp [List.filterMap_cons, hg]
      rw [hstep, ih hnd2]
      by_cases hb : b = k
      · subst hb
        simp [hk, hg]
      · simp [hb]
    | some c =>
      have hstep : (k :: ks).filterMap (fun k => (g k).map (fun c => (k, c))) =
          (k, c) :: ks.filterMap (fun k => (g k).map (fun c => (k, c))) := by
        simp [List.filterMap_cons, hg]
      rw [hstep]
      by_cases hb : b = k
      · subst hb
        simp [List.lookup, hg]
      · simp only [List.lookup, beq_eq_false_iff_ne.mpr hb]
        rw [ih hnd2]
        simp [hb]

theorem refB_ne_nil_iff (ref : List String) (bmap : String → Option String)
    (b : String) :
    ref.filter (fun s => bmap s == some b) ≠ [] ↔ b ∈ ref.filterMap bmap := by
  rw [List.mem_filterMap]
  constructor
  · intro hne
    rcases List.exists_mem_of_ne_nil _ hne with ⟨s, hs⟩
    have := List.mem_filter.mp hs
    exact ⟨s, this.1, beq_iff_eq.mp this.2⟩
  · rintro ⟨s, hs, hbs⟩ hnil
    have : s ∈ ref.filter (fun s => bmap s == some b) :=
      List.mem_filter.mpr ⟨hs, beq_iff_eq.mpr hbs⟩
    rw [hnil] at this
    simp at this

/-- C1: for every trip and every region present in the reference pattern,
with R the reference stops in that region and T the trip's stops
intersected with R: the region is excluded from the classification exactly
when T is empty; the trip is classified local exactly when T is nonempty
and |T| = |R| or |T| = 1; and express exactly when |T| >= 2 and
|T| differs from |R|. -/
theorem classify_trip_region_cases (f : Feed) (tid : String) (ref : List String)
    (bmap : String → Option String) (b : String) :
    ((classifyTripExpressLocal f tid ref bmap).lookup b = none ↔
      ((ref.filter (fun s => bmap s == some b)).filter
        (fun s => (tripStops f tid).contains s)) = []) ∧
    ((classifyTripExpressLocal f tid ref bmap).lookup b = some "local" ↔
      ((ref.filter (fun s => bmap s == some b)).filter
        (fun s => (tripStops f tid).contains s)) ≠ [] ∧
      (((ref.filter (fun s => bmap s == some b)).filter
          (fun s => (tripStops f tid).contains s)).length =
        (ref.filter (fun s => bmap s == some b)).length ∨
       ((ref.filter (fun s => bmap s == some b)).filter
          (fun s => (tripStops f tid).contains s)).length = 1)) ∧
    ((classifyTripExpressLocal f tid ref bmap).lookup b = some "express" ↔
      2 ≤ ((ref.filter (fun s => bmap s == some b)).filter
          (fun s => (tripStops f tid).contains s)).length ∧
      ((ref.filter (fun s => bmap s == some b)).filter
          (fun s => (tripStops f tid).contains s)).length ≠
        (ref.filter (fun s => bmap s == some b)).length) := by
  have hlook :
      (classifyTripExpressLocal f tid ref bmap).lookup b =
        if b ∈ dedupFirst (ref.filterMap bmap) then
          classifyOne (ref.filter (fun s => bmap s == some b))
            ((ref.filter (fun s => bmap s == some b)).filter
              (fun s => (tripStops f tid).contains s))
        else none := by
    unfold classifyTripExpressLocal
    exact lookup_filterMap_keys (dedupFirst (ref.filterMap bmap)) _ b
      (nodup_dedupFirst _)
  set refB := ref.filter (fun s => bmap s == some b) with hrefB
  set tripB := refB.filter (fun s => (tripStops f tid).contains s) with htripB
  have hmemiff : b ∈ dedupFirst (ref.filterMap bmap) ↔ refB ≠ [] := by
    rw [mem_dedupFirst]
    exact (refB_ne_nil_iff ref bmap b).symm
  by_cases hb : b ∈ dedupFirst (ref.filterMap bmap)
  · rw [hlook, if_pos hb]
    have hrne : refB ≠ [] := hmemiff.mp hb
    unfold classifyOne
    by_cases h0 : tripB.isEmpty
    · have h0e : tripB = [] := List.isEmpty_iff.mp h0
      rw [if_pos h0]
      refine ⟨by simp [h0e], ?_, ?_⟩
      · simp only [h0e]
        constructor
        · intro h; simp at h
        · rintro ⟨hne, _⟩; exact absurd rfl hne
      · simp only [h0e]
        constructor
        · intro h; simp at h
        · rintro ⟨h2, _⟩; simp at h2
    · have h0e : tripB ≠ [] := by
        intro hnil
        exact h0 (List.isEmpty_iff.mpr hnil)
      rw [if_neg h0]
      by_cases hlen : tripB.length = refB.length
      · rw [if_pos hlen]
        refine ⟨by simp [h0e], ?_, ?_⟩
        · simp only [eq_self_iff_true, true_iff]
          exact ⟨h0e, Or.inl hlen⟩
        · constructor
          · intro h; simp at h
          · rintro ⟨_, hne⟩; exact absurd hlen hne
      · rw [if_neg hlen]
        by_cases h2 : 2 ≤ tripB.length
        · rw [if_pos h2]
          refine ⟨by simp [h0e], ?_, ?_⟩
          · constructor
            · intro h; simp at h
            · rintro ⟨_, hlen1 | hlen1⟩
              · exact absurd hlen1 hlen
              · omega
          · simp only [eq_self_iff_true, true_iff]
            exact ⟨h2, hlen⟩
        · rw [if_neg h2]
          have hlen1 : tripB.length = 1 := by
            have : tripB.length ≠ 0 := by
              intro h
              exact h0e (List.length_eq_zero.mp h)
            omega
          refine ⟨by simp [h0e], ?_, ?_⟩
          · simp only [eq_self_iff_true, true_iff]
            exact ⟨h0e, Or.inr hlen1⟩
          · constructor
            · intro h; simp at h
            · rintro ⟨hc, _⟩; exact absurd hc h2
  · rw [hlook, if_neg hb]
    have hre : refB = [] := by
      by_contra hne
      exact hb (hmemiff.mpr hne)
    have hte : tripB = [] := by rw [htripB, hre]; rfl
    refine ⟨by simp [hte], ?_, ?_⟩
    · constructor
      · intro h; simp at h
      · rintro ⟨hne, _⟩; exact absurd hte hne
    · constructor
      · intro h; simp at h
      · rintro ⟨h2, _⟩
        rw [hte] at h2
        simp at h2

/-- A feed exercising the classification: one trip that skips stop B of
the three-stop reference pattern. -/
def feedC1 : Feed :=
  { trips := [⟨"t1", "R", 0, "Weekday"⟩]
    stopTimes :=
      [⟨"t1", "A", 1, ⟨6, 0, 0⟩, ⟨6, 0, 0⟩⟩,
       ⟨"t1", "C", 2, ⟨6, 10, 0⟩, ⟨6, 10, 0⟩⟩]
    stops := [⟨"A", "Stop A", none⟩, ⟨"B", "Stop B", none⟩, ⟨"C", "Stop C", none⟩] }

theorem classify_trip_region_cases_witness :
    (classifyTripExpressLocal feedC1 "t1" ["A", "B", "C"]
        (fun _ => some "Manhattan")).lookup "Manhattan" = some "express" ∧
    (classifyTripExpressLocal feedC1 "t1" ["A", "B", "C"]
        (fun _ => some "Manhattan")).lookup "Brooklyn" = none := by
  constructor
  · exact (classify_trip_region_cases feedC1 "t1" ["A", "B", "C"]
      (fun _ => some "Manhattan") "Manhattan").2.2.mpr (by decide)
  · exact (classify_trip_region_cases feedC1 "t1" ["A", "B", "C"]
      (fun _ => some "Manhattan") "Brooklyn").1.mpr (by decide)

/-- identify_branch_point in express_local.py: terminals of all
(route, direction) trips, grouped; branch point when several terminals.
Note the source applies no service filter here either. -/
def identifyBranchPointEL (f : Feed) (route : String) (dir : Nat) :
    Option String × List (String × List String) :=
  let trips := tripsFor f route dir
  if trips.isEmpty then (none, [])
  else
    let termList := terminalsLast f trips
    let counts := valueCounts (termList.map (fun p => p.2))
    match counts with
    | [c] => (none, [(c.1, trips.map (fun t => t.tripId))])
    | _ =>
      let branchesMap := counts.map (fun p =>
        (p.1, (termList.filter (fun q => q.2 == p.1)).map (fun q => q.1)))
      let samples := counts.filterMap (fun p =>
        ((termList.filter (fun q => q.2 == p.1)).head?).map (fun q => q.1))
      let common : List String :=
        match samples with
        | [] => []
        | t0 :: rest =>
          rest.foldl (fun acc tid =>
            acc.filter (fun s => (tripStops f tid).contains s)) (tripStops f t0)
      let bp :=
        if common.isEmpty then none
        else
          match termList.head? with
          | none => none
          | some p0 => ((tripStops f p0.1).filter (fun s => common.contains s)).getLast?
      (bp, branchesMap)

/-- One output row of analyze_route_express_patterns. -/
structure TripClassification where
  tripId : String
  branchTerminal : Option String
  classes : List (String × String)
deriving DecidableEq, Repr

/-- analyze_route_express_patterns: classify every trip of the
(route, direction, service) selection.  The service filter is applied to
the classified trips only; branch detection and reference-pattern
selection are invoked without it, exactly as in the source. -/
def analyzeRouteExpressPatterns (f : Feed) (route : String) (dir : Nat)
    (service : Option String) (bmap : String → Option String) :
    List TripClassification :=
  let trips0 := tripsFor f route dir
  let trips :=
    match service with
    | none => trips0
    | some sv => trips0.filter (fun t => t.serviceId == sv)
  if trips.isEmpty then []
  else
    let pr := identifyBranchPointEL f route dir
    if pr.1.isSome && decide (1 < pr.2.length) then
      pr.2.flatMap (fun br =>
        let ref := getReferenceStopPattern f route dir (some br.1)
        br.2.filterMap (fun tid =>
          if trips.any (fun t => t.tripId == tid) then
            some ⟨tid, some br.1, classifyTripExpressLocal f tid ref bmap⟩
          else none))
    else
      let ref := getReferenceStopPattern f route dir none
      trips.map (fun t => ⟨t.tripId, none, classifyTripExpressLocal f t.tripId ref bmap⟩)

/-- Modelled from the spec for comparison with the code: the claim's
variant of analyze_route_express_patterns in which the service filter also
applies to branch detection and reference selection. -/
def identifyBranchPointSpec (f : Feed) (route : String) (dir : Nat)
    (service : Option String) :
    Option String × List (String × List String) :=
  let trips0 := tripsFor f route dir
  let trips :=
    match service with
    | none => trips0
    | some sv => trips0.filter (fun t => t.serviceId == sv)
  if trips.isEmpty then (none, [])
  else
    let termList := terminalsLast f trips
    let counts := valueCounts (termList.map (fun p => p.2))
    match counts with
    | [c] => (none, [(c.1, trips.map (fun t => t.tripId))])
    | _ =>
      let branchesMap := counts.map (fun p =>
        (p.1, (termList.filter (fun q => q.2 == p.1)).map (fun q => q.1)))
      let samples := counts.filterMap (fun p =>
        ((termList.filter (fun q => q.2 == p.1)).head?).map (fun q => q.1))
      let common : List String :=
        match samples with
        | [] => []
        | t0 :: rest =>
          rest.foldl (fun acc tid =>
            acc.filter (fun s => (tripStops f tid).contains s)) (tripStops f t0)
      let bp :=
        if common.isEmpty then none
        else
          match termList.head? with
          | none => none
          | some p0 => ((tripStops f p0.1).filter (fun s => common.contains s)).getLast?
      (bp, branchesMap)

/-- Modelled from the spec: analyze with the service filter applied
throughout, as the claim describes. -/
def analyzeRouteExpressPatternsSpec (f : Feed) (route : String) (dir : Nat)
    (service : Option String) (bmap : String → Option String) :
    List TripClassification :=
  let trips0 := tripsFor f route dir
  let trips :=
    match service with
    | none => trips0
    | some sv => trips0.filter (fun t => t.serviceId == sv)
  if trips.isEmpty then []
  else
    let pr := identifyBranchPointSpec f route dir service
    if pr.1.isSome && decide (1 < pr.2.length) then
      pr.2.flatMap (fun br =>
        let ref :=
          match service with
          | none => getReferenceStopPattern f route dir (some br.1)
          | some sv => getReferenceStopPatternSpec f route dir sv (some br.1)
        br.2.filterMap (fun tid =>
          if trips.any (fun t => t.tripId == tid) then
            some ⟨tid, some br.1, classifyTripExpressLocal f tid ref bmap⟩
          else none))
    else
      let ref :=
        match service with
        | none => getReferenceStopPattern f route dir none
        | some sv => getReferenceStopPatternSpec f route dir sv none
      trips.map (fun t => ⟨t.tripId, none, classifyTripExpressLocal f t.tripId ref bmap⟩)

/-- A feed on which the service filter matters: the Weekday trip makes
two stops while a Saturday trip of the same route, direction and terminal
makes three. -/
def feedC2 : Feed :=
  { trips := [⟨"t1", "R", 0, "Weekday"⟩, ⟨"t2", "R", 0, "Saturday"⟩]
    stopTimes :=
      [⟨"t1", "S1", 1, ⟨6, 0, 0⟩, ⟨6, 0, 0⟩⟩,
       ⟨"t1", "S3", 2, ⟨6, 10, 0⟩, ⟨6, 10, 0⟩⟩,
       ⟨"t2", "S1", 1, ⟨7, 0, 0⟩, ⟨7, 0, 0⟩⟩,
       ⟨"t2", "S2", 2, ⟨7, 5, 0⟩, ⟨7, 5, 0⟩⟩,
       ⟨"t2", "S3", 3, ⟨7, 10, 0⟩, ⟨7, 10, 0⟩⟩]
    stops := [⟨"S1", "First St", none⟩, ⟨"S2", "Second St", none⟩,
              ⟨"S3", "Third St", none⟩] }

/-- C2 counterexample: with the Weekday service filter, the code's
reference pattern is the three-stop Saturday trip (no service filter in
reference selection), so the Weekday trip is classified express; under
the claim's service-filtered reference it would be its own two-stop
pattern and be classified local. -/
theorem service_filter_reference_counterexample :
    getReferenceStopPattern feedC2 "R" 0 none = ["S1", "S2", "S3"] ∧
    getReferenceStopPatternSpec feedC2 "R" 0 "Weekday" none = ["S1", "S3"] ∧
    analyzeRouteExpressPatterns feedC2 "R" 0 (some "Weekday") (fun _ => some "Queens") =
      [⟨"t1", none, [("Queens", "express")]⟩] ∧
    analyzeRouteExpressPatternsSpec feedC2 "R" 0 (some "Weekday") (fun _ => some "Queens") =
      [⟨"t1", none, [("Queens", "local")]⟩] := by
  refine ⟨?_, ?_, ?_, ?_⟩ <;> decide

/-- The trip set from which get_reference_stop_pattern draws its argmax:
all trips of the (route, direction) pair, restricted to the branch
terminal when one is given.  No service filter appears. -/
def referenceCandidateTrips (f : Feed) (route : String) (dir : Nat)
    (term : Option String) : List Trip :=
  match term with
  | none => tripsFor f route dir
  | some t0 => (tripsFor f route dir).filter
      (fun t => tripTerminal f t.tripId == some t0)

theorem argmaxFirst_isSome {α : Type} (key : α → Nat) (l : List α)
    (h : l ≠ []) : (argmaxFirst key l).isSome := by
  cases hm : argmaxFirst key l with
  | none => exact absurd ((argmaxFirst_eq_none key l).mp hm) h
  | some y => rfl

theorem sortedTripIds_ne_nil (ts : List Trip) (h : ts ≠ []) :
    sortedTripIds ts ≠ [] := by
  intro hnil
  have hperm := List.perm_insertionSort strLe (ts.map (fun t => t.tripId))
  rw [sortedTripIds] at hnil
  rw [hnil] at hperm
  have hlen := hperm.length_eq
  simp only [List.length_nil, List.length_map] at hlen
  exact h (List.length_eq_zero.mp hlen.symm)

theorem mem_sortedTripIds (ts : List Trip) (t : Trip) (h : t ∈ ts) :
    t.tripId ∈ sortedTripIds ts :=
  ((List.perm_insertionSort strLe _).mem_iff).mpr (List.mem_map_of_mem _ h)

/-- C2 amended: the reference pattern used by the classification is the
maximum-stop-count trip among the trips of the (route, direction) pair
regardless of service (restricted to the branch terminal trips when a
terminal is given); the service filter applies only to which trips are
classified. -/
theorem reference_pattern_ignores_service (f : Feed) (route : String)
    (dir : Nat) (term : Option String)
    (h2 : referenceCandidateTrips f route dir term ≠ []) :
    ∃ best,
      best ∈ sortedTripIds (referenceCandidateTrips f route dir term) ∧
      getReferenceStopPattern f route dir term = tripStops f best ∧
      ∀ t ∈ referenceCandidateTrips f route dir term,
        tripStopCount f t.tripId ≤ tripStopCount f best := by
  have htr : tripsFor f route dir ≠ [] := by
    intro hnil
    cases term with
    | none => exact h2 hnil
    | some t0 =>
      unfold referenceCandidateTrips at h2
      rw [hnil] at h2
      exact h2 rfl
  have hids := sortedTripIds_ne_nil _ h2
  obtain ⟨best, hbest⟩ := Option.isSome_iff_exists.mp
    (argmaxFirst_isSome (tripStopCount f) _ hids)
  refine ⟨best, argmaxFirst_mem _ _ _ hbest, ?_, ?_⟩
  · unfold getReferenceStopPattern
    rw [if_neg (by simpa [List.isEmpty_iff] using htr)]
    cases term with
    | none =>
      unfold referenceCandidateTrips at h2 hbest
      simp only
      rw [if_neg (by simpa [List.isEmpty_iff] using h2), hbest]
    | some t0 =>
      unfold referenceCandidateTrips at h2 hbest
      simp only
      rw [if_neg (by simpa [List.isEmpty_iff] using h2), hbest]
  · intro t ht
    exact argmaxFirst_le (tripStopCount f) _ best hbest t.tripId
      (mem_sortedTripIds _ t ht)

theorem reference_pattern_ignores_service_witness :
    ∃ best, best ∈ sortedTripIds (referenceCandidateTrips feedC2 "R" 0 none) ∧
      getReferenceStopPattern feedC2 "R" 0 none = tripStops feedC2 best ∧
      ∀ t ∈ referenceCandidateTrips feedC2 "R" 0 none,
        tripStopCount feedC2 t.tripId ≤ tripStopCount feedC2 best :=
  reference_pattern_ignores_service feedC2 "R" 0 none (by decide)

/-! ### Headway computation (headways.py)

get_line_headways_by_hour_improved collects one departure time per
contributing trip, converts to un-normalized seconds, sorts, computes
consecutive gaps and buckets each by the earlier train's hour mod 24.
The embedding operates on the collected departure-time list. -/

/-- Chronological order on departures: un-normalized elapsed seconds. -/
def timeLe (a b : GtfsTime) : Prop := a.seconds ≤ b.seconds

instance : DecidableRel timeLe := fun a b =>
  inferInstanceAs (Decidable (a.seconds ≤ b.seconds))

instance : IsTotal GtfsTime timeLe := ⟨fun a b => Nat.le_total _ _⟩

instance : IsTrans GtfsTime timeLe := ⟨fun _ _ _ => Nat.le_trans⟩

/-- `sort_values('departure_seconds')`: stable sort by elapsed seconds. -/
def sortDepartures (l : List GtfsTime) : List GtfsTime := l.insertionSort timeLe

/-- The gap loop over the sorted departures: for each i from 1, the gap in
minutes between departures i-1 and i, tagged with the hour (mod 24) of the
earlier one; the first and last gap skipped when exclusion is on. -/
def headwayEntries (sorted : List GtfsTime) (excl : Bool) : List (Nat × ℚ) :=
  (List.range sorted.length).filterMap (fun i =>
    if i = 0 then none
    else if excl && (i == 1 || i == sorted.length - 1) then none
    else
      match sorted[i-1]?, sorted[i]? with
      | some a, some b =>
        some (a.h % 24, ((b.seconds : ℚ) - (a.seconds : ℚ)) / 60)
      | _, _ => none)

/-- get_line_headways_by_hour_improved, as hour-indexed gap lists;
fewer than two departures yield no headways. -/
def getLineHeadwaysByHour (l : List GtfsTime) (excl : Bool) (hr : Nat) : List ℚ :=
  if l.length < 2 then []
  else (headwayEntries (sortDepartures l) excl).filterMap
    (fun p => if p.1 = hr then some p.2 else none)

/-- C3: departures are ordered by un-normalized seconds, so a post-24:00
departure sorts after every same-day departure with a smaller second
count, and every recorded gap is the difference of two consecutive sorted
departures attributed to the earlier one's hour mod 24. -/
theorem headways_sort_and_bucket (l : List GtfsTime) (excl : Bool) :
    (sortDepartures l).Perm l ∧
    (sortDepartures l).Pairwise timeLe ∧
    (∀ hr g, g ∈ getLineHeadwaysByHour l excl hr →
      ∃ i a b, (sortDepartures l)[i]? = some a ∧
        (sortDepartures l)[i+1]? = some b ∧
        hr = a.h % 24 ∧ a.seconds ≤ b.seconds ∧
        g = ((b.seconds : ℚ) - (a.seconds : ℚ)) / 60) := by
  refine ⟨List.perm_insertionSort timeLe l, List.sorted_insertionSort timeLe l, ?_⟩
  intro hr g hg
  unfold getLineHeadwaysByHour at hg
  by_cases hlen : l.length < 2
  · rw [if_pos hlen] at hg
    simp at hg
  · rw [if_neg hlen] at hg
    obtain ⟨p, hp, hpeq⟩ := List.mem_filterMap.mp hg
    have hpg : p.1 = hr ∧ p.2 = g := by
      by_cases hc : p.1 = hr
      · rw [if_pos hc] at hpeq
        exact ⟨hc, Option.some_injective _ hpeq⟩
      · rw [if_neg hc] at hpeq
        cases hpeq
    unfold headwayEntries at hp
    obtain ⟨i, hi, hieq⟩ := List.mem_filterMap.mp hp
    by_cases h0 : i = 0
    · rw [if_pos h0] at hieq
      cases hieq
    · rw [if_neg h0] at hieq
      by_cases hex : excl && (i == 1 || i == (sortDepartures l).length - 1)
      · rw [if_pos hex] at hieq
        cases hieq
      · rw [if_neg hex] at hieq
        cases ha : (sortDepartures l)[i-1]? with
        | none => rw [ha] at hieq; cases hieq
        | some a =>
          cases hb : (sortDepartures l)[i]? with
          | none => rw [ha, hb] at hieq; cases hieq
          | some b =>
            rw [ha, hb] at hieq
            have hab := Option.some_injective _ hieq
            refine ⟨i - 1, a, b, ha, ?_, ?_, ?_, ?_⟩
            · have : i - 1 + 1 = i := by omega
              rw [this, hb]
            · rw [← hpg.1, ← hab]
            · have hibound : i < (sortDepartures l).length := by
                have := List.mem_range.mp hi
                exact this
              have hia : i - 1 < i := by omega
              have hget_a : (sortDepartures l).get ⟨i-1, by omega⟩ = a := by
                have := List.getElem?_eq_getElem (l := sortDepartures l)
                  (n := i-1) (by omega)
                rw [List.get_eq_getElem]
                rw [this] at ha
                exact Option.some_injective _ ha
              have hget_b : (sortDepartures l).get ⟨i, hibound⟩ = b := by
                have := List.getElem?_eq_getElem (l := sortDepartures l)
                  (n := i) hibound
                rw [List.get_eq_getElem]
                rw [this] at hb
                exact Option.some_injective _ hb
              have hsorted : (sortDepartures l).Pairwise timeLe :=
                List.sorted_insertionSort timeLe l
              have hpair := List.pairwise_iff_get.mp
                hsorted ⟨i-1, by omega⟩ ⟨i, hibound⟩ (by simpa using hia)
              rw [hget_a, hget_b] at hpair
              exact hpair
            · rw [← hpg.2, ← hab]

/-- Concrete departures for the post-midnight scenario: 22:00, 23:50,
25:15, 26:00 and 27:00; with boundary exclusion on, the 25:15 to 26:00
gap of 45 minutes is reported in hour 1 (25 mod 24). -/
def depsC3 : List GtfsTime :=
  [⟨25, 15, 0⟩, ⟨23, 50, 0⟩, ⟨22, 0, 0⟩, ⟨26, 0, 0⟩, ⟨27, 0, 0⟩]

theorem headways_sort_and_bucket_witness :
    ∃ i a b, (sortDepartures depsC3)[i]? = some a ∧
      (sortDepartures depsC3)[i+1]? = some b ∧
      (1 : Nat) = a.h % 24 ∧ a.seconds ≤ b.seconds ∧
      (((GtfsTime.mk 26 0 0).seconds : ℚ) - ((GtfsTime.mk 25 15 0).seconds : ℚ)) / 60 =
        ((b.seconds : ℚ) - (a.seconds : ℚ)) / 60 :=
  (headways_sort_and_bucket depsC3 true).2.2 1
    ((((GtfsTime.mk 26 0 0).seconds : ℚ) - ((GtfsTime.mk 25 15 0).seconds : ℚ)) / 60)
    (by
      show _ ∈ getLineHeadwaysByHour depsC3 true 1
      unfold getLineHeadwaysByHour sortDepartures depsC3 headwayEntries
      norm_num [List.insertionSort, List.orderedInsert, timeLe, GtfsTime.seconds,
        List.range_succ, List.filterMap_cons]
      )

/-! ### Branch detection and canonical station order (travel_times.py) -/

/-- A branch descriptor from identify_branches: terminal, display name,
number of trips ending there and the stop count of its longest trip. -/
structure BranchInfo where
  terminalId : String
  terminalName : String
  tripCount : Nat
  stopCount : Nat
deriving DecidableEq, Repr

/-- The branch-precedence ordering of the source's sort key
(-trip_count, stop_count): strictly more trips first, ties by ascending
stop count. -/
def branchPrec (a b : BranchInfo) : Prop :=
  b.tripCount < a.tripCount ∨
    (a.tripCount = b.tripCount ∧ a.stopCount ≤ b.stopCount)

instance : DecidableRel branchPrec := fun a b =>
  inferInstanceAs (Decidable (b.tripCount < a.tripCount ∨
    (a.tripCount = b.tripCount ∧ a.stopCount ≤ b.stopCount)))

instance : IsTotal BranchInfo branchPrec :=
  ⟨fun a b => by
    unfold branchPrec
    rcases Nat.lt_trichotomy a.tripCount b.tripCount with h | h | h
    · rcases Nat.le_total a.stopCount b.stopCount with h2 | h2
      · exact Or.inr (Or.inl h)
      · exact Or.inr (Or.inl h)
    · rcases Nat.le_total a.stopCount b.stopCount with h2 | h2
      · exact Or.inl (Or.inr ⟨h, h2⟩)
      · exact Or.inr (Or.inr ⟨h.symm, h2⟩)
    · exact Or.inl (Or.inl h)⟩

instance : IsTrans BranchInfo branchPrec :=
  ⟨fun a b c hab hbc => by
    unfold branchPrec at *
    rcases hab with h1 | ⟨h1, h1s⟩ <;> rcases hbc with h2 | ⟨h2, h2s⟩
    · exact Or.inl (Nat.lt_trans h2 h1)
    · exact Or.inl (h2 ▸ h1)
    · exact Or.inl (h1 ▸ h2)
    · exact Or.inr ⟨h1.trans h2, h1s.trans h2s⟩⟩

/-- identify_branches in travel_times.py (service-filtered): branch point
and descriptor list sorted by descending trip count, ties by ascending
stop count (a stable sort over value_counts order). -/
def identifyBranches (f : Feed) (route : String) (dir : Nat) (service : String) :
    Option String × List BranchInfo :=
  let trips := tripsForService f route dir service
  if trips.isEmpty then (none, [])
  else
    let termList := terminalsLast f trips
    let counts := valueCounts (termList.map (fun p => p.2))
    match counts with
    | [_] => (none, [])
    | _ =>
      let infos := counts.map (fun p =>
        let gtids := (termList.filter (fun q => q.2 == p.1)).map (fun q => q.1)
        { terminalId := p.1
          terminalName := (stopName f p.1).getD p.1
          tripCount := p.2
          stopCount := (gtids.map (tripStopCount f)).foldl max 0 : BranchInfo })
      let samples := counts.filterMap (fun p =>
        ((termList.filter (fun q => q.2 == p.1)).head?).map (fun q => q.1))
      let common : List String :=
        match samples with
        | [] => []
        | t0 :: rest =>
          rest.foldl (fun acc tid =>
            acc.filter (fun s => (tripStops f tid).contains s)) (tripStops f t0)
      let bp :=
        if common.isEmpty then none
        else
          match termList.head? with
          | none => none
          | some p0 => ((tripStops f p0.1).filter (fun s => common.contains s)).getLast?
      (bp, infos.insertionSort branchPrec)

/-- The station-emission loop shared by the trunk and branch passes of
get_station_order: normalize each raw stop to its parent, skip ids already
emitted, append (id, name) when the name resolves.  The seen-set of the
source is exactly the set of emitted ids. -/
def emitStops (f : Feed) (raw : List String) (acc : List (String × String)) :
    List (String × String) :=
  raw.foldl (fun acc2 sid =>
    let nid := normalizeStopId f sid
    if acc2.any (fun p => p.1 == nid) then acc2
    else
      match stopName f nid with
      | some nm => acc2 ++ [(nid, nm)]
      | none => acc2) acc

/-- The trunk pass iterates the sample trip and breaks right after the row
whose normalized id equals the normalized branch point. -/
def takeThroughBranchPoint (f : Feed) (bp : String) : List String → List String
  | [] => []
  | x :: xs =>
    if normalizeStopId f x == normalizeStopId f bp then [x]
    else x :: takeThroughBranchPoint f bp xs

/-- The branch reference trip: the trip with the most stops among trips
ending at the terminal (idxmax over sorted trip ids). -/
def branchRefTrip (f : Feed) (termList : List (String × String)) (term : String) :
    Option String :=
  argmaxFirst (tripStopCount f) ((termList.filter (fun q => q.2 == term)).map (fun q => q.1))

/-- get_station_order: the canonical (stop, name) ordering.  Unbranched:
the deduplicated normalized stops of the longest trip.  Branched: the
trunk up to and including the branch point from the first trip, then each
branch's not-yet-seen stops in descriptor order. -/
def getStationOrder (f : Feed) (route : String) (dir : Nat) (service : String) :
    List (String × String) :=
  let trips := tripsForService f route dir service
  if trips.isEmpty then []
  else
    let pr := identifyBranches f route dir service
    if pr.2.isEmpty then
      match argmaxFirst (tripStopCount f) (sortedTripIds trips) with
      | none => []
      | some best => emitStops f (tripStops f best) []
    else
      let termList := terminalsLast f trips
      let trunkRaw :=
        match pr.1, termList.head? with
        | some bpid, some p0 => takeThroughBranchPoint f bpid (tripStops f p0.1)
        | _, _ => []
      pr.2.foldl (fun acc br =>
        match branchRefTrip f termList br.terminalId with
        | none => acc
        | some bt => emitStops f (tripStops f bt) acc) (emitStops f trunkRaw [])

/-- Where a direction-0-only stop is spliced in: right after the nearest
preceding stop already shared with the combined order, else at the end. -/
def insertPos (combined : List (String × String))
    (order0 : List (String × String)) (i : Nat) : Nat :=
  match ((order0.take i).reverse).find?
      (fun q => combined.any (fun c => c.1 == q.1)) with
  | none => combined.length
  | some prev =>
    match combined.findIdx? (fun c => c.1 == prev.1) with
    | some k => k + 1
    | none => combined.length

/-- The source's insertion of one direction-0-only stop into the combined
order: after the nearest preceding shared stop, else at the end. -/
def insertMissingStop (combined : List (String × String))
    (order0 : List (String × String)) (i : Nat) (p : String × String) :
    List (String × String) :=
  combined.insertIdx (insertPos combined order0 i) p

/-- get_bidirectional_station_order: direction 1 as base, direction-0-only
stops spliced in after their nearest shared predecessor. -/
def getBidirectionalStationOrder (f : Feed) (route : String) (service : String) :
    List (String × String) :=
  let order0 := getStationOrder f route 0 service
  let order1 := getStationOrder f route 1 service
  (List.range order0.length).foldl (fun combined i =>
    match order0[i]? with
    | none => combined
    | some p =>
      if combined.any (fun c => c.1 == p.1) then combined
      else insertMissingStop combined order0 i p) order1

/-- The stops a single emission pass adds, given the ids already seen:
used to exhibit the emission loop as trunk followed by per-branch
segments. -/
def emitNew (f : Feed) : List String → List String → List (String × String)
  | [], _ => []
  | sid :: rest, seen =>
    let nid := normalizeStopId f sid
    if seen.contains nid then emitNew f rest seen
    else
      match stopName f nid with
      | some nm => (nid, nm) :: emitNew f rest (nid :: seen)
      | none => emitNew f rest seen

theorem contains_iff_mem (l : List String) (a : String) :
    l.contains a = true ↔ a ∈ l := List.elem_iff

theorem any_fst_eq_contains (acc : List (String × String)) (x : String) :
    (acc.any (fun p => p.1 == x)) = ((acc.map Prod.fst).contains x) := by
  rw [Bool.eq_iff_iff, List.any_eq_true, contains_iff_mem]
  constructor
  · rintro ⟨p, hp, hpe⟩
    exact List.mem_map.mpr ⟨p, hp, beq_iff_eq.mp hpe⟩
  · intro hm
    obtain ⟨p, hp, hpe⟩ := List.mem_map.mp hm
    exact ⟨p, hp, beq_iff_eq.mpr hpe⟩

theorem emitNew_congr (f : Feed) (raw : List String) (seen1 seen2 : List String)
    (h : ∀ x, x ∈ seen1 ↔ x ∈ seen2) :
    emitNew f raw seen1 = emitNew f raw seen2 := by
  induction raw generalizing seen1 seen2 with
  | nil => rfl
  | cons sid rest ih =>
    simp only [emitNew]
    have hc : seen1.contains (normalizeStopId f sid) =
        seen2.contains (normalizeStopId f sid) := by
      rw [Bool.eq_iff_iff, contains_iff_mem, contains_iff_mem]
      exact h _
    rw [hc]
    by_cases hm : seen2.contains (normalizeStopId f sid)
    · rw [if_pos hm, if_pos hm]
      exact ih seen1 seen2 h
    · rw [if_neg hm, if_neg hm]
      cases stopName f (normalizeStopId f sid) with
      | none => exact ih seen1 seen2 h
      | some nm =>
        simp only
        rw [ih (normalizeStopId f sid :: seen1) (normalizeStopId f sid :: seen2)
          (by intro x; simp [h x])]

theorem emitStops_eq_append (f : Feed) (raw : List String)
    (acc : List (String × String)) :
    emitStops f raw acc = acc ++ emitNew f raw (acc.map Prod.fst) := by
  induction raw generalizing acc with
  | nil => simp [emitStops, emitNew]
  | cons sid rest ih =>
    have hstep : emitStops f (sid :: rest) acc =
        emitStops f rest
          (if acc.any (fun p => p.1 == normalizeStopId f sid) then acc
           else
             match stopName f (normalizeStopId f sid) with
             | some nm => acc ++ [(normalizeStopId f sid, nm)]
             | none => acc) := rfl
    rw [hstep]
    simp only [emitNew]
    by_cases hm : (acc.map Prod.fst).contains (normalizeStopId f sid)
    · rw [any_fst_eq_contains, hm]
      simp only [if_true]
      exact ih acc
    · rw [any_fst_eq_contains]
      rw [Bool.not_eq_true] at hm
      rw [hm]
      simp only [Bool.false_eq_true, if_false]
      cases hname : stopName f (normalizeStopId f sid) with
      | none => exact ih acc
      | some nm =>
        rw [ih (acc ++ [(normalizeStopId f sid, nm)])]
        rw [List.map_append]
        simp only [List.map_cons, List.map_nil]
        rw [List.append_assoc]
        congr 1
        simp only [List.cons_append, List.nil_append]
        congr 1
        exact emitNew_congr f rest _ _ (by intro x; simp [or_comm])

/-- The per-branch segments of the canonical order: each branch reference
trip's not-yet-seen normalized stops, threaded in descriptor order. -/
def branchSections (f : Feed) (termList : List (String × String)) :
    List BranchInfo → List String → List (List (String × String))
  | [], _ => []
  | br :: rest, seen =>
    let sec :=
      match branchRefTrip f termList br.terminalId with
      | none => []
      | some bt => emitNew f (tripStops f bt) seen
    sec :: branchSections f termList rest (seen ++ sec.map Prod.fst)

theorem foldl_branches_eq (f : Feed) (termList : List (String × String))
    (brs : List BranchInfo) (acc : List (String × String)) :
    brs.foldl (fun acc2 br =>
      match branchRefTrip f termList br.terminalId with
      | none => acc2
      | some bt => emitStops f (tripStops f bt) acc2) acc =
    acc ++ (branchSections f termList brs (acc.map Prod.fst)).join := by
  induction brs generalizing acc with
  | nil => simp [branchSections]
  | cons br rest ih =>
    simp only [List.foldl_cons, branchSections]
    cases hrt : branchRefTrip f termList br.terminalId with
    | none =>
      rw [ih acc]
      simp [List.join]
    | some bt =>
      dsimp only
      rw [emitStops_eq_append, ih]
      simp [List.map_append, List.append_assoc]

/-- The trunk portion of a branched canonical order: the first trip's
stops up to and including the branch point. -/
def branchTrunkRaw (f : Feed) (route : String) (dir : Nat) (service : String) :
    List String :=
  match (identifyBranches f route dir service).1,
      (terminalsLast f (tripsForService f route dir service)).head? with
  | some bpid, some p0 => takeThroughBranchPoint f bpid (tripStops f p0.1)
  | _, _ => []

theorem takeThrough_getLast (f : Feed) (bp : String) (raw : List String)
    (hx : ∃ x ∈ raw, normalizeStopId f x = normalizeStopId f bp) :
    ∃ y, (takeThroughBranchPoint f bp raw).getLast? = some y ∧
      normalizeStopId f y = normalizeStopId f bp := by
  induction raw with
  | nil => simp at hx
  | cons x xs ih =>
    simp only [takeThroughBranchPoint]
    by_cases hh : normalizeStopId f x == normalizeStopId f bp
    · rw [if_pos hh]
      exact ⟨x, rfl, beq_iff_eq.mp hh⟩
    · rw [if_neg hh]
      have hx2 : ∃ z ∈ xs, normalizeStopId f z = normalizeStopId f bp := by
        obtain ⟨z, hz, hze⟩ := hx
        rcases List.mem_cons.mp hz with rfl | hz2
        · exact absurd (beq_iff_eq.mpr hze) hh
        · exact ⟨z, hz2, hze⟩
      obtain ⟨y, hy, hye⟩ := ih hx2
      refine ⟨y, ?_, hye⟩
      cases ht : takeThroughBranchPoint f bp xs with
      | nil => rw [ht] at hy; cases hy
      | cons b bs =>
        rw [ht] at hy
        rw [List.getLast?_cons_cons]
        exact hy

/-- C6: branch descriptors are sorted by strictly descending trip count
with ties broken by ascending stop count, and a branched canonical order
is the trunk emission (the sample trip through the branch point) followed
by each branch's fresh stops in exactly that descriptor order. -/
theorem branch_descriptor_order_and_emission (f : Feed) (route : String)
    (dir : Nat) (service : String) :
    (identifyBranches f route dir service).2.Pairwise branchPrec ∧
    ((identifyBranches f route dir service).2 ≠ [] →
      getStationOrder f route dir service =
        emitStops f (branchTrunkRaw f route dir service) [] ++
        (branchSections f (terminalsLast f (tripsForService f route dir service))
          (identifyBranches f route dir service).2
          ((emitStops f (branchTrunkRaw f route dir service) []).map Prod.fst)).join) ∧
    (∀ bpid p0, (identifyBranches f route dir service).1 = some bpid →
      (terminalsLast f (tripsForService f route dir service)).head? = some p0 →
      (∃ x ∈ tripStops f p0.1, normalizeStopId f x = normalizeStopId f bpid) →
      ∃ y, (branchTrunkRaw f route dir service).getLast? = some y ∧
        normalizeStopId f y = normalizeStopId f bpid) := by
  refine ⟨?_, ?_, ?_⟩
  · show (identifyBranches f route dir service).2.Pairwise branchPrec
    unfold identifyBranches
    by_cases ht : (tripsForService f route dir service).isEmpty
    · simp only [ht, if_true]
      exact List.Pairwise.nil
    · simp only [ht, Bool.false_eq_true, if_false]
      cases hcounts : valueCounts ((terminalsLast f
          (tripsForService f route dir service)).map (fun p => p.2)) with
      | nil => exact List.sorted_insertionSort branchPrec _
      | cons c cs =>
        cases cs with
        | nil => exact List.Pairwise.nil
        | cons c2 cs2 => exact List.sorted_insertionSort branchPrec _
  · intro hbr
    have ht : ¬ (tripsForService f route dir service).isEmpty = true := by
      intro ht
      apply hbr
      unfold identifyBranches
      simp [ht]
    unfold getStationOrder
    rw [if_neg ht]
    rw [if_neg (by simpa [List.isEmpty_iff] using hbr)]
    rw [foldl_branches_eq]
    rfl
  · intro bpid p0 hbp hhead hex
    unfold branchTrunkRaw
    rw [hbp, hhead]
    exact takeThrough_getLast f bpid (tripStops f p0.1) hex

theorem emitNew_nodup_disjoint (f : Feed) (raw : List String) :
    ∀ seen, ((emitNew f raw seen).map Prod.fst).Nodup ∧
      ∀ x ∈ (emitNew f raw seen).map Prod.fst, x ∉ seen := by
  induction raw with
  | nil => intro seen; simp [emitNew]
  | cons sid rest ih =>
    intro seen
    simp only [emitNew]
    by_cases hm : seen.contains (normalizeStopId f sid)
    · rw [if_pos hm]
      exact ih seen
    · rw [if_neg hm]
      cases stopName f (normalizeStopId f sid) with
      | none => exact ih seen
      | some nm =>
        simp only [List.map_cons]
        obtain ⟨hnd, hdisj⟩ := ih (normalizeStopId f sid :: seen)
        constructor
        · refine List.Nodup.cons ?_ hnd
          intro hmem
          exact hdisj _ hmem (List.mem_cons_self _ _)
        · intro x hx
          rcases List.mem_cons.mp hx with rfl | hx2
          · intro hxs
            exact hm (contains_iff_mem _ _ |>.mpr hxs)
          · intro hxs
            exact hdisj x hx2 (List.mem_cons_of_mem _ hxs)

theorem emitStops_nodup (f : Feed) (raw : List String)
    (acc : List (String × String)) (h : (acc.map Prod.fst).Nodup) :
    ((emitStops f raw acc).map Prod.fst).Nodup := by
  rw [emitStops_eq_append, List.map_append]
  rw [List.nodup_append]
  obtain ⟨hnd, hdisj⟩ := emitNew_nodup_disjoint f raw (acc.map Prod.fst)
  exact ⟨h, hnd, fun x hx hy => hdisj x hy hx⟩

theorem foldl_branch_nodup (f : Feed) (termList : List (String × String))
    (brs : List BranchInfo) (acc : List (String × String))
    (h : (acc.map Prod.fst).Nodup) :
    ((brs.foldl (fun acc2 br =>
      match branchRefTrip f termList br.terminalId with
      | none => acc2
      | some bt => emitStops f (tripStops f bt) acc2) acc).map Prod.fst).Nodup := by
  induction brs generalizing acc with
  | nil => exact h
  | cons br rest ih =>
    simp only [List.foldl_cons]
    cases hrt : branchRefTrip f termList br.terminalId with
    | none => exact ih acc h
    | some bt => exact ih _ (emitStops_nodup f _ acc h)

theorem getStationOrder_nodup (f : Feed) (route : String) (dir : Nat)
    (service : String) :
    ((getStationOrder f route dir service).map Prod.fst).Nodup := by
  unfold getStationOrder
  by_cases ht : (tripsForService f route dir service).isEmpty
  · simp [ht]
  · simp only [ht, Bool.false_eq_true, if_false]
    by_cases hbr : (identifyBranches f route dir service).2.isEmpty
    · rw [if_pos hbr]
      cases hm : argmaxFirst (tripStopCount f)
          (sortedTripIds (tripsForService f route dir service)) with
      | none => simp
      | some best => exact emitStops_nodup f _ [] (by simp)
    · rw [if_neg hbr]
      exact foldl_branch_nodup f _ _ _ (emitStops_nodup f _ [] (by simp))

theorem filter_notmem_and_ne (D seen : List String) (nid : String)
    (hnid : nid ∈ seen) :
    (D.filter (fun y => y ≠ nid)).filter (fun x => decide (x ∉ seen)) =
      D.filter (fun x => decide (x ∉ seen)) := by
  rw [List.filter_filter]
  refine List.filter_congr ?_
  intro a _
  by_cases hc : a ∈ seen
  · simp [hc]
  · have hne : a ≠ nid := fun he => hc (he ▸ hnid)
    simp [hc, hne]

theorem filter_notmem_cons (D seen : List String) (nid : String) :
    (D.filter (fun y => y ≠ nid)).filter (fun x => decide (x ∉ seen)) =
      D.filter (fun x => decide (x ∉ (nid :: seen))) := by
  rw [List.filter_filter]
  refine List.filter_congr ?_
  intro a _
  by_cases hc : a ∈ seen <;> by_cases he : a = nid
  · subst he; simp [hc]
  · simp [hc, he]
  · subst he; simp [hc]
  · simp [hc, he]

theorem emitNew_map_fst_of_names (f : Feed) (raw : List String)
    (hn : ∀ sid ∈ raw, (stopName f (normalizeStopId f sid)).isSome) :
    ∀ seen, (emitNew f raw seen).map Prod.fst =
      (dedupFirst (raw.map (normalizeStopId f))).filter
        (fun x => decide (x ∉ seen)) := by
  induction raw with
  | nil => intro seen; simp [emitNew, dedupFirst]
  | cons sid rest ih =>
    intro seen
    have hn2 : ∀ s ∈ rest, (stopName f (normalizeStopId f s)).isSome :=
      fun s hs => hn s (List.mem_cons_of_mem _ hs)
    simp only [emitNew, List.map_cons, dedupFirst]
    by_cases hm : seen.contains (normalizeStopId f sid)
    · have hmem : normalizeStopId f sid ∈ seen := (contains_iff_mem _ _).mp hm
      rw [if_pos hm]
      rw [List.filter_cons_of_neg (by simp [hmem])]
      rw [ih hn2 seen]
      exact (filter_notmem_and_ne _ seen _ hmem).symm
    · have hmem : normalizeStopId f sid ∉ seen := by
        intro h
        exact hm ((contains_iff_mem _ _).mpr h)
      rw [if_neg hm]
      cases hname : stopName f (normalizeStopId f sid) with
      | none =>
        have := hn sid (List.mem_cons_self _ _)
        rw [hname] at this
        cases this
      | some nm =>
        simp only [List.map_cons]
        rw [List.filter_cons_of_pos (by simp [hmem])]
        congr 1
        rw [ih hn2 (normalizeStopId f sid :: seen)]
        exact (filter_notmem_cons _ seen _).symm

theorem findIdx?_bound {α : Type} (p : α → Bool) (l : List α) :
    ∀ i k, List.findIdx? p l i = some k → k < i + l.length := by
  induction l with
  | nil => intro i k h; simp [List.findIdx?] at h
  | cons x xs ih =>
    intro i k h
    simp only [List.findIdx?] at h
    by_cases hp : p x
    · rw [if_pos hp] at h
      have : k = i := (Option.some_injective _ h).symm
      subst this
      simp [Nat.lt_succ_of_le, Nat.le_add_right]
    · rw [if_neg hp] at h
      have := ih (i + 1) k h
      simp only [List.length_cons]
      omega

theorem insertPos_le (combined : List (String × String))
    (order0 : List (String × String)) (i : Nat) :
    insertPos combined order0 i ≤ combined.length := by
  unfold insertPos
  cases ((order0.take i).reverse).find?
      (fun q => combined.any (fun c => c.1 == q.1)) with
  | none => exact Nat.le_refl _
  | some prev =>
    dsimp only
    cases hidx : combined.findIdx? (fun c => c.1 == prev.1) with
    | none => exact Nat.le_refl _
    | some k =>
      dsimp only
      have := findIdx?_bound _ combined 0 k hidx
      omega

theorem insertMissingStop_nodup (combined : List (String × String))
    (order0 : List (String × String)) (i : Nat) (p : String × String)
    (hnd : (combined.map Prod.fst).Nodup) (hnew : p.1 ∉ combined.map Prod.fst) :
    ((insertMissingStop combined order0 i p).map Prod.fst).Nodup := by
  unfold insertMissingStop
  have hperm := List.perm_insertIdx p combined (insertPos_le combined order0 i)
  have hperm2 := hperm.map Prod.fst
  rw [(hperm2.nodup_iff)]
  simp only [List.map_cons]
  exact List.Nodup.cons hnew hnd

theorem bidirectional_fold_nodup (order0 : List (String × String))
    (idxs : List Nat) (combined : List (String × String))
    (h : (combined.map Prod.fst).Nodup) :
    ((idxs.foldl (fun combined i =>
      match order0[i]? with
      | none => combined
      | some p =>
        if combined.any (fun c => c.1 == p.1) then combined
        else insertMissingStop combined order0 i p) combined).map Prod.fst).Nodup := by
  induction idxs generalizing combined with
  | nil => exact h
  | cons i rest ih =>
    simp only [List.foldl_cons]
    cases hoi : order0[i]? with
    | none => exact ih combined h
    | some p =>
      dsimp only
      by_cases hany : combined.any (fun c => c.1 == p.1)
      · rw [if_pos hany]
        exact ih combined h
      · rw [if_neg hany]
        refine ih _ (insertMissingStop_nodup combined order0 i p h ?_)
        intro hmem
        obtain ⟨q, hq, hqe⟩ := List.mem_map.mp hmem
        rw [Bool.not_eq_true, List.any_eq_false] at hany
        exact hany q hq (beq_iff_eq.mpr hqe)

/-- C7: every canonical station order is duplicate-free after parent
normalization; for a single-terminal triple its length is the number of
distinct normalized stops of the longest trip; and the merged
bidirectional order is also duplicate-free. -/
theorem station_order_nodup_and_length (f : Feed) (route : String)
    (dir : Nat) (service : String) :
    ((getStationOrder f route dir service).map Prod.fst).Nodup ∧
    (∀ best,
      (identifyBranches f route dir service).2 = [] →
      tripsForService f route dir service ≠ [] →
      argmaxFirst (tripStopCount f)
        (sortedTripIds (tripsForService f route dir service)) = some best →
      (∀ sid ∈ tripStops f best, (stopName f (normalizeStopId f sid)).isSome) →
      (getStationOrder f route dir service).length =
        (dedupFirst ((tripStops f best).map (normalizeStopId f))).length ∧
      ∀ t ∈ tripsForService f route dir service,
        tripStopCount f t.tripId ≤ tripStopCount f best) ∧
    ((getBidirectionalStationOrder f route service).map Prod.fst).Nodup := by
  refine ⟨getStationOrder_nodup f route dir service, ?_, ?_⟩
  · intro best hbr htr hmax hn
    constructor
    · unfold getStationOrder
      rw [if_neg (by simpa [List.isEmpty_iff] using htr)]
      rw [if_pos (by simp [hbr])]
      rw [hmax]
      dsimp only
      have h1 : emitStops f (tripStops f best) [] =
          emitNew f (tripStops f best) [] := by
        rw [emitStops_eq_append]
        simp
      rw [h1]
      have h2 := emitNew_map_fst_of_names f (tripStops f best) hn []
      have h3 : (emitNew f (tripStops f best) []).length =
          ((emitNew f (tripStops f best) []).map Prod.fst).length :=
        (List.length_map _ _).symm
      rw [h3, h2]
      congr 1
      refine List.filter_eq_self.mpr ?_
      intro a _
      simp
    · intro t ht
      exact argmaxFirst_le (tripStopCount f) _ best hmax t.tripId
        (mem_sortedTripIds _ t ht)
  · unfold getBidirectionalStationOrder
    exact bidirectional_fold_nodup _ _ _
      (getStationOrder_nodup f route 1 service)

/-- A branched fixture: the S4 branch carries two trips, the S3 branch
one, with branch point S2. -/
def feedBr : Feed :=
  { trips := [⟨"t1", "A", 0, "Weekday"⟩, ⟨"t2", "A", 0, "Weekday"⟩,
              ⟨"t3", "A", 0, "Weekday"⟩]
    stopTimes :=
      [⟨"t1", "S1", 1, ⟨6, 0, 0⟩, ⟨6, 0, 0⟩⟩,
       ⟨"t1", "S2", 2, ⟨6, 5, 0⟩, ⟨6, 5, 0⟩⟩,
       ⟨"t1", "S3", 3, ⟨6, 10, 0⟩, ⟨6, 10, 0⟩⟩,
       ⟨"t2", "S1", 1, ⟨7, 0, 0⟩, ⟨7, 0, 0⟩⟩,
       ⟨"t2", "S2", 2, ⟨7, 5, 0⟩, ⟨7, 5, 0⟩⟩,
       ⟨"t2", "S4", 3, ⟨7, 10, 0⟩, ⟨7, 10, 0⟩⟩,
       ⟨"t3", "S1", 1, ⟨8, 0, 0⟩, ⟨8, 0, 0⟩⟩,
       ⟨"t3", "S2", 2, ⟨8, 5, 0⟩, ⟨8, 5, 0⟩⟩,
       ⟨"t3", "S4", 3, ⟨8, 10, 0⟩, ⟨8, 10, 0⟩⟩]
    stops := [⟨"S1", "Alpha", none⟩, ⟨"S2", "Beta", none⟩,
              ⟨"S3", "Gamma", none⟩, ⟨"S4", "Delta", none⟩] }

theorem branch_descriptor_order_and_emission_witness :
    getStationOrder feedBr "A" 0 "Weekday" =
      emitStops feedBr (branchTrunkRaw feedBr "A" 0 "Weekday") [] ++
      (branchSections feedBr (terminalsLast feedBr (tripsForService feedBr "A" 0 "Weekday"))
        (identifyBranches feedBr "A" 0 "Weekday").2
        ((emitStops feedBr (branchTrunkRaw feedBr "A" 0 "Weekday") []).map Prod.fst)).join ∧
    (∃ y, (branchTrunkRaw feedBr "A" 0 "Weekday").getLast? = some y ∧
      normalizeStopId feedBr y = normalizeStopId feedBr "S2") := by
  constructor
  · exact (branch_descriptor_order_and_emission feedBr "A" 0 "Weekday").2.1
      (by decide)
  · exact (branch_descriptor_order_and_emission feedBr "A" 0 "Weekday").2.2
      "S2" ("t1", "S3") (by decide) (by decide) (by decide)

theorem station_order_nodup_and_length_witness :
    (getStationOrder feedC2 "R" 0 "Weekday").length =
      (dedupFirst ((tripStops feedC2 "t1").map (normalizeStopId feedC2))).length ∧
    ∀ t ∈ tripsForService feedC2 "R" 0 "Weekday",
      tripStopCount feedC2 t.tripId ≤ tripStopCount feedC2 "t1" := by
  have h := (station_order_nodup_and_length feedC2 "R" 0 "Weekday").2.1
    "t1" (by decide) (by decide) (by decide) (by decide)
  exact h

/-! ### Travel-time matrices (travel_times.py)

A matrix is a station-name list with a row-major grid of optional minute
values; after the source's transpose, columns are origins and rows are
destinations.  Minute values (Python floats) are modelled exactly as
rationals. -/

/-- A travel-time table: station names indexing a square grid of optional
average minutes. -/
structure TTMatrix where
  stations : List String
  rows : List (List (Option ℚ))
deriving DecidableEq, Repr

/-- Positional cell access (pandas iloc). -/
def TTMatrix.cellAt (m : TTMatrix) (i j : Nat) : Option ℚ :=
  match m.rows[i]? with
  | none => none
  | some row =>
    match row[j]? with
    | none => none
    | some v => v

/-- Label-based cell access (pandas loc): first index of each name. -/
def TTMatrix.cell (m : TTMatrix) (s t : String) : Option ℚ :=
  match m.stations.findIdx? (fun x => x == s),
      m.stations.findIdx? (fun x => x == t) with
  | some i, some j => m.cellAt i j
  | _, _ => none

/-- Well-formedness of a built matrix: square grid, distinct labels. -/
def TTMatrix.wf (m : TTMatrix) : Prop :=
  m.rows.length = m.stations.length ∧
  (∀ row ∈ m.rows, row.length = m.stations.length) ∧
  m.stations.Nodup

/-- The per-trip stop data rows that survive the station filter of
calculate_travel_time_matrix: (normalized id, arrival seconds, departure
seconds) in sequence order. -/
def stopsDataOf (f : Feed) (ids : List String) (tid : String) :
    List (String × Nat × Nat) :=
  (tripStopTimes f tid).filterMap (fun st =>
    let nid := normalizeStopId f st.stopId
    if ids.contains nid then
      some (nid, st.arrivalTime.seconds, st.departureTime.seconds)
    else none)

/-- All ordered pairs (i before j) of one trip with the elapsed minutes
(arrival at j minus departure at i, divided by 60). -/
def tripPairObs : List (String × Nat × Nat) → List ((String × String) × ℚ)
  | [] => []
  | o :: rest =>
    rest.map (fun d => ((o.1, d.1), ((d.2.1 : ℚ) - (o.2.2 : ℚ)) / 60)) ++
      tripPairObs rest

/-- All observations of a trip set over the requested station ids. -/
def collectTravelTimes (f : Feed) (trips : List Trip) (ids : List String) :
    List ((String × String) × ℚ) :=
  trips.flatMap (fun t => tripPairObs (stopsDataOf f ids t.tripId))

/-- The recorded minutes for one (origin, destination) key. -/
def obsFor (obs : List ((String × String) × ℚ)) (k : String × String) :
    List ℚ :=
  obs.filterMap (fun e => if e.1 = k then some e.2 else none)

/-- np.mean over the recorded values, absent when no data. -/
def avgObs (obs : List ((String × String) × ℚ)) (k : String × String) :
    Option ℚ :=
  let vs := obsFor obs k
  if vs.isEmpty then none else some (vs.sum / (vs.length : ℚ))

/-- calculate_travel_time_matrix: square table over the given station
order, diagonal fixed at 0, transposed so cell (r, c) holds the average
from station c to station r. -/
def calculateTravelTimeMatrix (f : Feed) (route : String) (dir : Nat)
    (service : String) (order : List (String × String)) : TTMatrix :=
  if order.isEmpty then ⟨[], []⟩
  else
    let ids := order.map Prod.fst
    let obs := collectTravelTimes f (tripsForService f route dir service) ids
    ⟨order.map Prod.snd,
     (List.range ids.length).map (fun r =>
       (List.range ids.length).map (fun c =>
         if r = c then some 0 else avgObs obs (ids.getD c "", ids.getD r "")))⟩

/-- Pairwise fill of missing cells (the NaN fill loop), positional. -/
def fillRows (r0 r1 : List (List (Option ℚ))) : List (List (Option ℚ)) :=
  List.zipWith (fun a b =>
    List.zipWith (fun x y =>
      match x with
      | some v => some v
      | none => y) a b) r0 r1

/-- pandas reindex onto a new label list: label-aligned lookup, absent
labels giving empty cells. -/
def reindexMatrix (m : TTMatrix) (all : List String) : TTMatrix :=
  ⟨all, all.map (fun s => all.map (fun t => m.cell s t))⟩

/-- combine_bidirectional_matrix: empty inputs pass through; identical
station sets merge positionally; differing sets are first re-indexed onto
the union (direction-0 order first, the other direction's exclusive
stations appended). -/
def combineBidirectionalMatrix (m0 m1 : TTMatrix) : TTMatrix :=
  if m0.stations.isEmpty then m1
  else if m1.stations.isEmpty then m0
  else if m0.stations.toFinset = m1.stations.toFinset then
    ⟨m0.stations, fillRows m0.rows m1.rows⟩
  else
    let all := m0.stations ++ m1.stations.filter
      (fun s => !(m0.stations.contains s))
    ⟨all, fillRows (reindexMatrix m0 all).rows (reindexMatrix m1 all).rows⟩

theorem getElem?_zipWith {α β γ : Type} (g : α → β → γ) (as : List α)
    (bs : List β) (hl : as.length = bs.length) (i : Nat) :
    (List.zipWith g as bs)[i]? =
      match as[i]?, bs[i]? with
      | some a, some b => some (g a b)
      | _, _ => none := by
  induction as generalizing bs i with
  | nil =>
    cases bs with
    | nil => simp
    | cons b bs2 => simp at hl
  | cons a as2 ih =>
    cases bs with
    | nil => simp at hl
    | cons b bs2 =>
      cases i with
      | zero => simp
      | succ n =>
        simp only [List.zipWith_cons_cons, List.getElem?_cons_succ]
        exact ih bs2 (by simpa using hl) n

theorem findIdx?_spec {α : Type} (p : α → Bool) (l : List α) :
    ∀ i k, List.findIdx? p l i = some k →
      i ≤ k ∧ ∃ x, l[k - i]? = some x ∧ p x = true := by
  induction l with
  | nil => intro i k h; simp [List.findIdx?] at h
  | cons a as ih =>
    intro i k h
    simp only [List.findIdx?] at h
    by_cases hp : p a
    · rw [if_pos hp] at h
      have : k = i := (Option.some_injective _ h).symm
      subst this
      exact ⟨Nat.le_refl _, a, by simp, hp⟩
    · rw [if_neg hp] at h
      obtain ⟨hik, x, hx, hpx⟩ := ih (i + 1) k h
      refine ⟨by omega, x, ?_, hpx⟩
      have : k - i = (k - (i + 1)) + 1 := by omega
      rw [this, List.getElem?_cons_succ]
      exact hx

theorem findIdx?_beq_spec (l : List String) (s : String) (k : Nat)
    (h : l.findIdx? (fun x => x == s) = some k) : l[k]? = some s := by
  obtain ⟨_, x, hx, hpx⟩ := findIdx?_spec (fun x => x == s) l 0 k h
  simp only [Nat.sub_zero] at hx
  rw [hx]
  exact congrArg some (beq_iff_eq.mp hpx)

theorem findIdx?_of_mem (l : List String) (s : String) (h : s ∈ l) :
    ∃ k, l.findIdx? (fun x => x == s) = some k := by
  cases hf : l.findIdx? (fun x => x == s) with
  | some k => exact ⟨k, rfl⟩
  | none =>
    have := List.findIdx?_eq_none_iff.mp hf s h
    simp at this

theorem cell_eq_none_of_not_mem (m : TTMatrix) (s t : String)
    (h : s ∉ m.stations ∨ t ∉ m.stations) : m.cell s t = none := by
  unfold TTMatrix.cell
  rcases h with h | h
  · have : m.stations.findIdx? (fun x => x == s) = none := by
      rw [List.findIdx?_eq_none_iff]
      intro x hx
      exact beq_eq_false_iff_ne.mpr (fun he => h (he ▸ hx))
    rw [this]
  · have : m.stations.findIdx? (fun x => x == t) = none := by
      rw [List.findIdx?_eq_none_iff]
      intro x hx
      exact beq_eq_false_iff_ne.mpr (fun he => h (he ▸ hx))
    rw [this]
    cases m.stations.findIdx? (fun x => x == s) <;> rfl

theorem cellAt_fill (st0 st1 : List String) (r0 r1 : List (List (Option ℚ)))
    (hl : r0.length = r1.length)
    (hr : ∀ (i : Nat) (row0 row1 : List (Option ℚ)), r0[i]? = some row0 →
      r1[i]? = some row1 → row0.length = row1.length) :
    ∀ i j, TTMatrix.cellAt ⟨st0, fillRows r0 r1⟩ i j =
      match TTMatrix.cellAt ⟨st0, r0⟩ i j with
      | some v => some v
      | none => TTMatrix.cellAt ⟨st1, r1⟩ i j := by
  intro i j
  have hzip := getElem?_zipWith (fun a b =>
    List.zipWith (fun x y =>
      match x with
      | some v => some v
      | none => y) a b) r0 r1 hl i
  unfold TTMatrix.cellAt
  simp only [fillRows]
  rw [hzip]
  cases h0 : r0[i]? with
  | none =>
    have h1 : r1[i]? = none := by
      rw [List.getElem?_eq_none_iff] at h0 ⊢
      omega
    rw [h1]
  | some row0 =>
    cases h1 : r1[i]? with
    | none =>
      exfalso
      obtain ⟨hlt, _⟩ := List.getElem?_eq_some.mp h0
      have hge := List.getElem?_eq_none_iff.mp h1
      omega
    | some row1 =>
      dsimp only
      rw [getElem?_zipWith _ row0 row1 (hr i row0 row1 h0 h1) j]
      cases hj0 : row0[j]? with
      | none =>
        have hj1 : row1[j]? = none := by
          rw [List.getElem?_eq_none_iff] at hj0 ⊢
          rw [← hr i row0 row1 h0 h1]
          exact hj0
        rw [hj1]
      | some x =>
        cases hj1 : row1[j]? with
        | none =>
          exfalso
          obtain ⟨hlt, _⟩ := List.getElem?_eq_some.mp hj0
          have hge := List.getElem?_eq_none_iff.mp hj1
          have hlen := hr i row0 row1 h0 h1
          omega
        | some y =>
          dsimp only

theorem cellAt_grid (all : List String) (g : String → String → Option ℚ)
    (i j : Nat) (si sj : String) (hsi : all[i]? = some si)
    (hsj : all[j]? = some sj) :
    TTMatrix.cellAt ⟨all, all.map (fun s => all.map (fun t => g s t))⟩ i j =
      g si sj := by
  have h1 : (all.map (fun s => all.map (fun t => g s t)))[i]? =
      some (all.map (fun t => g si t)) := by
    rw [List.getElem?_map, hsi]
    rfl
  have h2 : (all.map (fun t => g si t))[j]? = some (g si sj) := by
    rw [List.getElem?_map, hsj]
    rfl
  unfold TTMatrix.cellAt
  simp only [h1, h2]

theorem notmem_of_findIdx?_none (l : List String) (s : String)
    (h : l.findIdx? (fun x => x == s) = none) : s ∉ l := by
  intro hmem
  have := List.findIdx?_eq_none_iff.mp h s hmem
  simp at this

theorem cell_fill_of_eq_stations (m0 m1 : TTMatrix) (h0 : m0.wf) (h1 : m1.wf)
    (hlists : m0.stations = m1.stations) (s t : String) :
    TTMatrix.cell ⟨m0.stations, fillRows m0.rows m1.rows⟩ s t =
      match m0.cell s t with
      | some v => some v
      | none => m1.cell s t := by
  obtain ⟨hl0, hrow0, _⟩ := h0
  obtain ⟨hl1, hrow1, _⟩ := h1
  have hdim : m0.rows.length = m1.rows.length := by rw [hl0, hl1, hlists]
  have hrows : ∀ (i : Nat) (row0 row1 : List (Option ℚ)),
      m0.rows[i]? = some row0 → m1.rows[i]? = some row1 →
      row0.length = row1.length := by
    intro i row0 row1 ha hb
    rw [hrow0 row0 (List.getElem?_mem ha), hrow1 row1 (List.getElem?_mem hb), hlists]
  unfold TTMatrix.cell
  simp only
  rw [← hlists]
  cases hfs : m0.stations.findIdx? (fun x => x == s) with
  | none => rfl
  | some i =>
    cases hft : m0.stations.findIdx? (fun x => x == t) with
    | none => rfl
    | some j =>
      dsimp only
      exact cellAt_fill m0.stations m1.stations m0.rows m1.rows hdim hrows i j

theorem cell_reindex_fill (m0 m1 : TTMatrix) (all : List String)
    (hall : ∀ x, x ∈ all ↔ (x ∈ m0.stations ∨ x ∈ m1.stations)) (s t : String) :
    TTMatrix.cell ⟨all, fillRows (reindexMatrix m0 all).rows
        (reindexMatrix m1 all).rows⟩ s t =
      match m0.cell s t with
      | some v => some v
      | none => m1.cell s t := by
  have hdim : (reindexMatrix m0 all).rows.length =
      (reindexMatrix m1 all).rows.length := by
    simp [reindexMatrix]
  have hrows : ∀ (i : Nat) (row0 row1 : List (Option ℚ)),
      (reindexMatrix m0 all).rows[i]? = some row0 →
      (reindexMatrix m1 all).rows[i]? = some row1 →
      row0.length = row1.length := by
    intro i row0 row1 ha hb
    have ha2 := List.getElem?_mem ha
    have hb2 := List.getElem?_mem hb
    simp only [reindexMatrix, List.mem_map] at ha2 hb2
    obtain ⟨x, _, hx⟩ := ha2
    obtain ⟨y, _, hy⟩ := hb2
    rw [← hx, ← hy]
    simp
  by_cases hsm : s ∈ all
  · by_cases htm : t ∈ all
    · obtain ⟨i, hfs⟩ := findIdx?_of_mem all s hsm
      obtain ⟨j, hft⟩ := findIdx?_of_mem all t htm
      have hall_i : all[i]? = some s := findIdx?_beq_spec all s i hfs
      have hall_j : all[j]? = some t := findIdx?_beq_spec all t j hft
      have hL : TTMatrix.cell ⟨all, fillRows (reindexMatrix m0 all).rows
            (reindexMatrix m1 all).rows⟩ s t =
          TTMatrix.cellAt ⟨all, fillRows (reindexMatrix m0 all).rows
            (reindexMatrix m1 all).rows⟩ i j := by
        unfold TTMatrix.cell
        simp only
        rw [hfs, hft]
      rw [hL]
      rw [cellAt_fill all all (reindexMatrix m0 all).rows
        (reindexMatrix m1 all).rows hdim hrows i j]
      have hg0 : TTMatrix.cellAt ⟨all, (reindexMatrix m0 all).rows⟩ i j =
          m0.cell s t :=
        cellAt_grid all (fun s t => m0.cell s t) i j s t hall_i hall_j
      have hg1 : TTMatrix.cellAt ⟨all, (reindexMatrix m1 all).rows⟩ i j =
          m1.cell s t :=
        cellAt_grid all (fun s t => m1.cell s t) i j s t hall_i hall_j
      rw [hg0, hg1]
    · have hL : TTMatrix.cell ⟨all, fillRows (reindexMatrix m0 all).rows
            (reindexMatrix m1 all).rows⟩ s t = none :=
        cell_eq_none_of_not_mem _ s t (Or.inr htm)
      have hs0 : m0.cell s t = none := cell_eq_none_of_not_mem m0 s t
        (Or.inr (fun h => htm ((hall t).mpr (Or.inl h))))
      have hs1 : m1.cell s t = none := cell_eq_none_of_not_mem m1 s t
        (Or.inr (fun h => htm ((hall t).mpr (Or.inr h))))
      rw [hL, hs0, hs1]
  · have hL : TTMatrix.cell ⟨all, fillRows (reindexMatrix m0 all).rows
          (reindexMatrix m1 all).rows⟩ s t = none :=
      cell_eq_none_of_not_mem _ s t (Or.inl hsm)
    have hs0 : m0.cell s t = none := cell_eq_none_of_not_mem m0 s t
      (Or.inl (fun h => hsm ((hall s).mpr (Or.inl h))))
    have hs1 : m1.cell s t = none := cell_eq_none_of_not_mem m1 s t
      (Or.inl (fun h => hsm ((hall s).mpr (Or.inr h))))
    rw [hL, hs0, hs1]

theorem combine_cell (m0 m1 : TTMatrix) (h0 : m0.wf) (h1 : m1.wf)
    (hcase : m0.stations = m1.stations ∨
      m0.stations.toFinset ≠ m1.stations.toFinset) :
    ∀ s t, (combineBidirectionalMatrix m0 m1).cell s t =
      match m0.cell s t with
      | some v => some v
      | none => m1.cell s t := by
  intro s t
  unfold combineBidirectionalMatrix
  by_cases he0 : m0.stations.isEmpty
  · rw [if_pos he0]
    have hce : m0.cell s t = none := cell_eq_none_of_not_mem m0 s t
      (Or.inl (by rw [List.isEmpty_iff.mp he0]; simp))
    rw [hce]
  · rw [if_neg he0]
    by_cases he1 : m1.stations.isEmpty
    · rw [if_pos he1]
      have hce : m1.cell s t = none := cell_eq_none_of_not_mem m1 s t
        (Or.inl (by rw [List.isEmpty_iff.mp he1]; simp))
      rw [hce]
      cases hc : m0.cell s t <;> rfl
    · rw [if_neg he1]
      by_cases hset : m0.stations.toFinset = m1.stations.toFinset
      · rw [if_pos hset]
        have hlists : m0.stations = m1.stations := by
          rcases hcase with h | h
          · exact h
          · exact absurd hset h
        exact cell_fill_of_eq_stations m0 m1 h0 h1 hlists s t
      · rw [if_neg hset]
        refine cell_reindex_fill m0 m1 _ ?_ s t
        intro x
        simp only [List.mem_append, List.mem_filter]
        constructor
        · rintro (h | ⟨h, _⟩)
          · exact Or.inl h
          · exact Or.inr h
        · rintro (h | h)
          · exact Or.inl h
          · by_cases hx : x ∈ m0.stations
            · exact Or.inl hx
            · refine Or.inr ⟨h, ?_⟩
              simp only [Bool.not_eq_true']
              rw [Bool.eq_iff_iff]
              simp only [Bool.false_eq_true, iff_false]
              intro hc
              exact hx ((contains_iff_mem _ _).mp hc)

theorem combine_stations_mem (m0 m1 : TTMatrix) :
    ∀ s ∈ (combineBidirectionalMatrix m0 m1).stations,
      s ∈ m0.stations ∨ s ∈ m1.stations := by
  intro s hs
  unfold combineBidirectionalMatrix at hs
  by_cases he0 : m0.stations.isEmpty
  · rw [if_pos he0] at hs
    exact Or.inr hs
  · rw [if_neg he0] at hs
    by_cases he1 : m1.stations.isEmpty
    · rw [if_pos he1] at hs
      exact Or.inl hs
    · rw [if_neg he1] at hs
      by_cases hset : m0.stations.toFinset = m1.stations.toFinset
      · rw [if_pos hset] at hs
        exact Or.inl hs
      · rw [if_neg hset] at hs
        simp only [List.mem_append, List.mem_filter] at hs
        rcases hs with h | ⟨h, _⟩
        · exact Or.inl h
        · exact Or.inr h

theorem cellAt_range_grid (n : Nat) (st : List String) (g : Nat → Nat → Option ℚ)
    (i j : Nat) (hi : i < n) (hj : j < n) :
    TTMatrix.cellAt ⟨st, (List.range n).map (fun r =>
      (List.range n).map (fun c => g r c))⟩ i j = g i j := by
  have h1 : ((List.range n).map (fun r => (List.range n).map (fun c => g r c)))[i]? =
      some ((List.range n).map (fun c => g i c)) := by
    rw [List.getElem?_map, List.getElem?_range hi]
    rfl
  have h2 : ((List.range n).map (fun c => g i c))[j]? = some (g i j) := by
    rw [List.getElem?_map, List.getElem?_range hj]
    rfl
  unfold TTMatrix.cellAt
  simp only [h1, h2]

/-- Supporting fact about the builder: a single-direction matrix over a
station order with distinct names is well-formed and has its diagonal
fixed at exactly 0, which is what the combination theorem assumes of its
inputs. -/
theorem calculateTravelTimeMatrix_wf_diag (f : Feed) (route : String)
    (dir : Nat) (service : String) (order : List (String × String))
    (hnd : (order.map Prod.snd).Nodup) :
    (calculateTravelTimeMatrix f route dir service order).wf ∧
    ∀ s ∈ (calculateTravelTimeMatrix f route dir service order).stations,
      (calculateTravelTimeMatrix f route dir service order).cell s s = some 0 := by
  unfold calculateTravelTimeMatrix
  by_cases ho : order.isEmpty
  · rw [if_pos ho]
    refine ⟨⟨rfl, by simp, List.nodup_nil⟩, by simp⟩
  · rw [if_neg ho]
    constructor
    · refine ⟨by simp, ?_, hnd⟩
      intro row hrow
      simp only [List.mem_map] at hrow
      obtain ⟨r, _, hr⟩ := hrow
      rw [← hr]
      simp
    · intro s hs
      obtain ⟨i, hfs⟩ := findIdx?_of_mem _ s hs
      have hsi := findIdx?_beq_spec _ s i hfs
      have hi : i < order.length := by
        have := (List.getElem?_eq_some.mp hsi).1
        simpa using this
      unfold TTMatrix.cell
      simp only [hfs]
      have := cellAt_range_grid (order.map Prod.fst).length (order.map Prod.snd)
        (fun r c => if r = c then some 0
          else avgObs (collectTravelTimes f (tripsForService f route dir service)
            (order.map Prod.fst))
            ((order.map Prod.fst).getD c "", (order.map Prod.fst).getD r ""))
        i i (by simpa using hi) (by simpa using hi)
      rw [this]
      simp

/-- C4: given two well-formed single-direction matrices with zero
diagonals (as the builder produces), whose station lists are identical or
whose station sets differ, the combined bidirectional matrix has every
diagonal cell exactly 0; every cell defined in exactly one direction
carries that direction's value; and when the sets differ the stations are
re-indexed onto the union, direction-0 order first with the other
direction's exclusive stations appended. -/
theorem combined_matrix_properties (m0 m1 : TTMatrix) (h0 : m0.wf) (h1 : m1.wf)
    (hcase : m0.stations = m1.stations ∨
      m0.stations.toFinset ≠ m1.stations.toFinset)
    (hd0 : ∀ s ∈ m0.stations, m0.cell s s = some 0)
    (hd1 : ∀ s ∈ m1.stations, m1.cell s s = some 0) :
    (∀ s ∈ (combineBidirectionalMatrix m0 m1).stations,
      (combineBidirectionalMatrix m0 m1).cell s s = some 0) ∧
    (∀ s t v, m0.cell s t = some v → m1.cell s t = none →
      (combineBidirectionalMatrix m0 m1).cell s t = some v) ∧
    (∀ s t v, m0.cell s t = none → m1.cell s t = some v →
      (combineBidirectionalMatrix m0 m1).cell s t = some v) ∧
    (m0.stations ≠ [] → m1.stations ≠ [] →
      m0.stations.toFinset ≠ m1.stations.toFinset →
      (combineBidirectionalMatrix m0 m1).stations =
        m0.stations ++ m1.stations.filter (fun s => !(m0.stations.contains s))) := by
  refine ⟨?_, ?_, ?_, ?_⟩
  · intro s hs
    rw [combine_cell m0 m1 h0 h1 hcase s s]
    by_cases hm : s ∈ m0.stations
    · rw [hd0 s hm]
    · have h0n : m0.cell s s = none := cell_eq_none_of_not_mem m0 s s (Or.inl hm)
      rw [h0n]
      rcases combine_stations_mem m0 m1 s hs with h | h
      · exact absurd h hm
      · exact hd1 s h
  · intro s t v hv hn
    rw [combine_cell m0 m1 h0 h1 hcase s t, hv]
  · intro s t v hz hv
    rw [combine_cell m0 m1 h0 h1 hcase s t, hz, hv]
  · intro hne0 hne1 hset
    unfold combineBidirectionalMatrix
    rw [if_neg (by simpa [List.isEmpty_iff] using hne0)]
    rw [if_neg (by simpa [List.isEmpty_iff] using hne1)]
    rw [if_neg hset]

/-- Literal matrices for the same-station combination path. -/
def matC4a : TTMatrix :=
  ⟨["X", "Y"], [[some 0, none], [some 5, some 0]]⟩

def matC4b : TTMatrix :=
  ⟨["X", "Y"], [[some 0, some 7], [none, some 0]]⟩

/-- Literal matrices for the differing-station re-index path. -/
def matC4c : TTMatrix := ⟨["X"], [[some 0]]⟩

def matC4d : TTMatrix :=
  ⟨["X", "Z"], [[some 0, none], [some 3, some 0]]⟩

theorem combined_matrix_properties_witness :
    (combineBidirectionalMatrix matC4a matC4b).cell "X" "X" = some 0 ∧
    (combineBidirectionalMatrix matC4a matC4b).cell "Y" "X" = some 5 ∧
    (combineBidirectionalMatrix matC4a matC4b).cell "X" "Y" = some 7 ∧
    (combineBidirectionalMatrix matC4c matC4d).stations = ["X", "Z"] := by
  have ha := combined_matrix_properties matC4a matC4b
    (by refine ⟨rfl, ?_, by decide⟩; decide)
    (by refine ⟨rfl, ?_, by decide⟩; decide)
    (Or.inl rfl) (by decide) (by decide)
  have hb := combined_matrix_properties matC4c matC4d
    (by refine ⟨rfl, ?_, by decide⟩; decide)
    (by refine ⟨rfl, ?_, by decide⟩; decide)
    (Or.inr (by decide)) (by decide) (by decide)
  refine ⟨ha.1 "X" (by decide), ?_, ?_, ?_⟩
  · exact ha.2.1 "Y" "X" 5 (by decide) (by decide)
  · exact ha.2.2.1 "X" "Y" 7 (by decide) (by decide)
  · exact hb.2.2.2 (by decide) (by decide) (by decide)

/-! ### Hour-filtered travel-time matrix (calculate_travel_time_matrix_by_hour) -/

/-- The hour argument: a single hour or an inclusive range. -/
inductive HourSpec
  | single (h : Nat)
  | span (a b : Nat)
deriving DecidableEq, Repr

/-- `hour_range`: the requested hour list, `[h]` or `range(a, b+1)`. -/
def HourSpec.hours : HourSpec → List Nat
  | .single h => [h]
  | .span a b => List.range' a (b + 1 - a)

/-- Per-trip stop rows with the origin departure hour
(`int(parts[0]) % 24`) attached. -/
def stopsDataHourOf (f : Feed) (ids : List String) (tid : String) :
    List (String × Nat × Nat × Nat) :=
  (tripStopTimes f tid).filterMap (fun st =>
    let nid := normalizeStopId f st.stopId
    if ids.contains nid then
      some (nid, st.arrivalTime.seconds, st.departureTime.seconds,
        st.departureTime.h % 24)
    else none)

/-- The nested pair loop of the hour-filtered variant: a row's pairs are
emitted only when the origin's departure hour is in the requested list. -/
def tripPairObsHour (hours : List Nat) :
    List (String × Nat × Nat × Nat) → List ((String × String) × ℚ)
  | [] => []
  | o :: rest =>
    (if o.2.2.2 ∈ hours then
      rest.map (fun d => ((o.1, d.1), ((d.2.1 : ℚ) - (o.2.2.1 : ℚ)) / 60))
    else []) ++ tripPairObsHour hours rest

/-- The same pair loop without the hour test, each observation annotated
with its origin's departure hour. -/
def tripPairObsAnn :
    List (String × Nat × Nat × Nat) → List ((((String × String) × ℚ)) × Nat)
  | [] => []
  | o :: rest =>
    rest.map (fun d => (((o.1, d.1), ((d.2.1 : ℚ) - (o.2.2.1 : ℚ)) / 60), o.2.2.2)) ++
      tripPairObsAnn rest

/-- Observations of the trip set restricted to the hour window. -/
def collectTravelTimesByHour (f : Feed) (trips : List Trip) (ids : List String)
    (hours : List Nat) : List ((String × String) × ℚ) :=
  trips.flatMap (fun t => tripPairObsHour hours (stopsDataHourOf f ids t.tripId))

/-- All observations of the trip set, hour-annotated. -/
def collectTravelTimesAnn (f : Feed) (trips : List Trip) (ids : List String) :
    List ((((String × String) × ℚ)) × Nat) :=
  trips.flatMap (fun t => tripPairObsAnn (stopsDataHourOf f ids t.tripId))

/-- calculate_travel_time_matrix_by_hour: observations restricted by the
origin's departure hour; stations with no observation in the window are
dropped from both dimensions of the returned square table. -/
def calculateTravelTimeMatrixByHour (f : Feed) (route : String) (dir : Nat)
    (hs : HourSpec) (service : String) (order : List (String × String)) :
    TTMatrix :=
  if order.isEmpty then ⟨[], []⟩
  else
    let ids := order.map Prod.fst
    let obs := collectTravelTimesByHour f (tripsForService f route dir service)
      ids hs.hours
    let fOrder := order.filter (fun p =>
      obs.any (fun e => e.1.1 == p.1 || e.1.2 == p.1))
    if fOrder.isEmpty then ⟨[], []⟩
    else
      let fids := fOrder.map Prod.fst
      ⟨fOrder.map Prod.snd,
       (List.range fids.length).map (fun r =>
         (List.range fids.length).map (fun c =>
           if r = c then some 0
           else avgObs obs (fids.getD c "", fids.getD r "")))⟩

theorem tripPairObsHour_eq_filter (hours : List Nat)
    (sd : List (String × Nat × Nat × Nat)) :
    tripPairObsHour hours sd =
      (tripPairObsAnn sd).filterMap
        (fun e => if e.2 ∈ hours then some e.1 else none) := by
  induction sd with
  | nil => rfl
  | cons o rest ih =>
    simp only [tripPairObsHour, tripPairObsAnn, List.filterMap_append]
    congr 1
    · by_cases hh : o.2.2.2 ∈ hours
      · rw [if_pos hh]
        rw [List.filterMap_map]
        rw [List.filterMap_congr (g := fun d =>
          (some ((o.1, d.1), ((d.2.1 : ℚ) - (o.2.2.1 : ℚ)) / 60) : Option ((String × String) × ℚ)))
          (by intro x _; simp [Function.comp, hh])]
        rw [show (fun d : String × Nat × Nat × Nat =>
          (some ((o.1, d.1), ((d.2.1 : ℚ) - (o.2.2.1 : ℚ)) / 60) : Option ((String × String) × ℚ))) =
          some ∘ (fun d : String × Nat × Nat × Nat =>
            ((o.1, d.1), ((d.2.1 : ℚ) - (o.2.2.1 : ℚ)) / 60)) from rfl]
        rw [List.filterMap_eq_map]
      · rw [if_neg hh]
        rw [List.filterMap_map]
        rw [List.filterMap_congr (g := fun _ =>
          (none : Option ((String × String) × ℚ)))
          (by intro x _; simp [Function.comp, hh])]
        simp


theorem collectByHour_eq_filter (f : Feed) (trips : List Trip)
    (ids : List String) (hours : List Nat) :
    collectTravelTimesByHour f trips ids hours =
      (collectTravelTimesAnn f trips ids).filterMap
        (fun e => if e.2 ∈ hours then some e.1 else none) := by
  induction trips with
  | nil => rfl
  | cons t rest ih =>
    simp only [collectTravelTimesByHour, collectTravelTimesAnn,
      List.flatMap_cons, List.filterMap_append] at *
    rw [ih, tripPairObsHour_eq_filter]

/-- C8: an ordered stop pair of a trip contributes an observation exactly
when the origin's departure hour (mod 24) lies in the requested hour or
inclusive range, and every station with no observation in the window is
dropped from both the rows and the columns of the returned square table. -/
theorem hour_filter_and_station_drop (f : Feed) (route : String) (dir : Nat)
    (hs : HourSpec) (service : String) (order : List (String × String)) :
    (∀ o d v,
      ((o, d), v) ∈ collectTravelTimesByHour f
        (tripsForService f route dir service) (order.map Prod.fst) hs.hours ↔
      ∃ hr, (((o, d), v), hr) ∈ collectTravelTimesAnn f
          (tripsForService f route dir service) (order.map Prod.fst) ∧
        hr ∈ hs.hours) ∧
    (calculateTravelTimeMatrixByHour f route dir hs service order).stations =
      (order.filter (fun p =>
        (collectTravelTimesByHour f (tripsForService f route dir service)
          (order.map Prod.fst) hs.hours).any
          (fun e => e.1.1 == p.1 || e.1.2 == p.1))).map Prod.snd ∧
    (calculateTravelTimeMatrixByHour f route dir hs service order).rows.length =
      (calculateTravelTimeMatrixByHour f route dir hs service order).stations.length ∧
    (calculateTravelTimeMatrixByHour f route dir hs service order).rows.map
        List.length =
      List.replicate
        (calculateTravelTimeMatrixByHour f route dir hs service order).stations.length
        (calculateTravelTimeMatrixByHour f route dir hs service order).stations.length := by
  refine ⟨?_, ?_⟩
  · intro o d v
    rw [collectByHour_eq_filter, List.mem_filterMap]
    constructor
    · rintro ⟨e, he, hge⟩
      by_cases hh : e.2 ∈ hs.hours
      · rw [if_pos hh] at hge
        refine ⟨e.2, ?_, hh⟩
        have : e.1 = ((o, d), v) := Option.some_injective _ hge
        rw [← this]
        exact he
      · rw [if_neg hh] at hge
        cases hge
    · rintro ⟨hr, hmem, hh⟩
      exact ⟨(((o, d), v), hr), hmem, by rw [if_pos hh]⟩
  · unfold calculateTravelTimeMatrixByHour
    by_cases ho : order.isEmpty
    · rw [if_pos ho]
      rw [List.isEmpty_iff.mp ho]
      simp
    · rw [if_neg ho]
      by_cases hf : (order.filter (fun p =>
          (collectTravelTimesByHour f (tripsForService f route dir service)
            (order.map Prod.fst) hs.hours).any
            (fun e => e.1.1 == p.1 || e.1.2 == p.1))).isEmpty
      · rw [if_pos hf]
        rw [List.isEmpty_iff.mp hf]
        simp
      · rw [if_neg hf]
        refine ⟨rfl, by simp, ?_⟩
        simp only
        refine List.eq_replicate.mpr ⟨by simp, ?_⟩
        intro b hb
        simp only [List.map_map, List.mem_map] at hb
        obtain ⟨r, _, hr⟩ := hb
        rw [← hr]
        simp

theorem hour_filter_and_station_drop_witness :
    (calculateTravelTimeMatrixByHour feedC2 "R" 0 (HourSpec.single 6) "Weekday"
      [("S1", "First St"), ("S2", "Second St"), ("S3", "Third St")]).stations =
      ["First St", "Third St"] := by
  rw [(hour_filter_and_station_drop feedC2 "R" 0 (HourSpec.single 6) "Weekday"
    [("S1", "First St"), ("S2", "Second St"), ("S3", "Third St")]).2.1]
  decide

/-! ### Branch-isolated headways (combined_headways.py, get_headway_dist_branch) -/

/-- Which end of the trips the requested terminal was found at. -/
inductive BranchEnd
  | origin
  | destination
deriving DecidableEq, Repr

/-- One row of the 24-hour headway table. -/
structure HeadwayRow where
  hour : Nat
  numTrains : Nat
  avgHeadway : Option ℚ
  minHeadway : Option ℚ
  maxHeadway : Option ℚ
deriving DecidableEq, Repr

/-- The outcome of get_headway_dist_branch: the raised conditions are
modelled as error constructors, the no-matching-terminal one carrying the
available terminal names its message lists. -/
inductive BranchResult
  | noTrips
  | noTerminal (available : List String)
  | noStopTimes
  | ok (whichEnd : BranchEnd) (terminalId : String) (terminalName : String)
      (rows : List HeadwayRow)
deriving DecidableEq, Repr

/-- Lower-casing of a Python string. -/
def lowerStr (s : String) : String := ⟨s.data.map Char.toLower⟩

/-- Case-insensitive substring containment: Python's
`needle.lower() in hay.lower()`. -/
def isSubstrOf (needle hay : String) : Bool :=
  ((lowerStr hay).data.tails).any (fun t => (lowerStr needle).data.isPrefixOf t)

/-- The source's linear scan over the unique end stops: the first one
whose resolved name contains the needle, with its name. -/
def findTerminalMatch (f : Feed) (needle : String) (uniqueStops : List String) :
    Option (String × String) :=
  uniqueStops.findSome? (fun sid =>
    match stopName f sid with
    | none => none
    | some nm => if isSubstrOf needle nm then some (sid, nm) else none)

/-- The available-stops listing in the no-match error message: resolved
names of both ends' unique stops, deduplicated and sorted. -/
def availableTerminalNames (f : Feed) (firstU lastU : List String) :
    List String :=
  (dedupFirst ((firstU ++ lastU).filterMap (stopName f))).insertionSort strLe

/-- Trip ids of the resolved branch: trips whose matched end equals the
resolved terminal. -/
def branchTripIds (f : Feed) (trips : List Trip) (e : BranchEnd)
    (term : String) : List String :=
  match e with
  | .origin => ((terminalsFirst f trips).filter (fun p => p.2 == term)).map
      (fun p => p.1)
  | .destination => ((terminalsLast f trips).filter (fun p => p.2 == term)).map
      (fun p => p.1)

/-- The departure times the branch headways are computed over: at a
specific stop, every stop_times row of a branch trip at that stop;
otherwise the first stop of each branch trip. -/
def branchDepartures (f : Feed) (trips : List Trip) (e : BranchEnd)
    (term : String) (stopFilter : Option String) : List GtfsTime :=
  let btids := branchTripIds f trips e term
  match stopFilter with
  | some sid =>
    (f.stopTimes.filter (fun st =>
      btids.contains st.tripId && st.stopId == sid)).map
      (fun st => st.departureTime)
  | none =>
    btids.filterMap (fun tid =>
      ((tripStopTimes f tid).head?).map (fun st => st.departureTime))

/-- min of a nonempty rational list. -/
def listMinQ : List ℚ → Option ℚ
  | [] => none
  | x :: xs => some (xs.foldl min x)

/-- max of a nonempty rational list. -/
def listMaxQ : List ℚ → Option ℚ
  | [] => none
  | x :: xs => some (xs.foldl max x)

/-- The gaps attributed to one hour, over the sorted departures: the same
loop as the single-route computation. -/
def branchBuckets (sorted : List GtfsTime) (excl : Bool) (hr : Nat) : List ℚ :=
  (headwayEntries sorted excl).filterMap
    (fun p => if p.1 = hr then some p.2 else none)

/-- The 24-row table of get_headway_dist_branch.  With fewer than two
departures every row reports one train when a single departure exists and
zero otherwise; with two or more, a row's num_trains is the LENGTH OF ITS
GAP LIST, exactly as the source computes it. -/
def buildBranchRows (deps : List GtfsTime) (excl : Bool) : List HeadwayRow :=
  let sorted := sortDepartures deps
  if sorted.length < 2 then
    (List.range 24).map (fun h =>
      ⟨h, if sorted.length = 0 then 0 else 1, none, none, none⟩)
  else
    (List.range 24).map (fun h =>
      let hw := branchBuckets sorted excl h
      if hw.isEmpty then ⟨h, 0, none, none, none⟩
      else ⟨h, hw.length, some (hw.sum / (hw.length : ℚ)),
        listMinQ hw, listMaxQ hw⟩)

/-- The successful tail of get_headway_dist_branch once a terminal end is
resolved, including the specific-stop error path. -/
def branchOk (f : Feed) (trips : List Trip) (stopFilter : Option String)
    (excl : Bool) (e : BranchEnd) (tid tnm : String) : BranchResult :=
  match stopFilter with
  | some sid =>
    if ((f.stopTimes.filter (fun st =>
        (branchTripIds f trips e tid).contains st.tripId && st.stopId == sid))).isEmpty
    then BranchResult.noStopTimes
    else BranchResult.ok e tid tnm
      (buildBranchRows (branchDepartures f trips e tid stopFilter) excl)
  | none =>
    BranchResult.ok e tid tnm
      (buildBranchRows (branchDepartures f trips e tid none) excl)

/-- get_headway_dist_branch: resolve the terminal substring against the
unique first and last stops, raise the no-matching-terminal condition
listing the available names when neither end matches, use the matching
end when exactly one matches, and break both-end ties by significant-
terminal counts (the 5 percent threshold, an exact rational here where
the source uses a float). -/
def getHeadwayDistBranch (f : Feed) (route : String) (dir : Nat)
    (needle : String) (service : String) (stopFilter : Option String)
    (excl : Bool) : BranchResult :=
  let trips := tripsForService f route dir service
  if trips.isEmpty then BranchResult.noTrips
  else
    let firstU := dedupFirst ((terminalsFirst f trips).map (fun p => p.2))
    let lastU := dedupFirst ((terminalsLast f trips).map (fun p => p.2))
    match findTerminalMatch f needle firstU, findTerminalMatch f needle lastU with
    | some fm, some lm =>
      let threshold : ℚ := (trips.length : ℚ) * (5 / 100)
      let fCounts := valueCounts ((terminalsFirst f trips).map (fun p => p.2))
      let lCounts := valueCounts ((terminalsLast f trips).map (fun p => p.2))
      let sigF := (fCounts.filter (fun p => threshold ≤ (p.2 : ℚ))).length
      let sigL := (lCounts.filter (fun p => threshold ≤ (p.2 : ℚ))).length
      if sigL < sigF then branchOk f trips stopFilter excl .origin fm.1 fm.2
      else if sigF < sigL then branchOk f trips stopFilter excl .destination lm.1 lm.2
      else if firstU.length < lastU.length then
        branchOk f trips stopFilter excl .origin fm.1 fm.2
      else branchOk f trips stopFilter excl .destination lm.1 lm.2
    | some fm, none => branchOk f trips stopFilter excl .origin fm.1 fm.2
    | none, some lm => branchOk f trips stopFilter excl .destination lm.1 lm.2
    | none, none => BranchResult.noTerminal (availableTerminalNames f firstU lastU)

theorem findTerminalMatch_eq_none_iff (f : Feed) (needle : String)
    (us : List String) :
    findTerminalMatch f needle us = none ↔
      ∀ sid ∈ us, ∀ nm, stopName f sid = some nm →
        isSubstrOf needle nm = false := by
  unfold findTerminalMatch
  rw [List.findSome?_eq_none]
  constructor
  · intro h sid hsid nm hnm
    have := h sid hsid
    rw [hnm] at this
    dsimp only at this
    by_cases hsub : isSubstrOf needle nm
    · rw [if_pos hsub] at this
      cases this
    · exact Bool.not_eq_true _ |>.mp hsub
  · intro h sid hsid
    cases hnm : stopName f sid with
    | none => rfl
    | some nm =>
      have := h sid hsid nm hnm
      simp only [this, Bool.false_eq_true, if_false]

theorem findTerminalMatch_some_spec (f : Feed) (needle : String)
    (us : List String) (p : String × String)
    (h : findTerminalMatch f needle us = some p) :
    p.1 ∈ us ∧ stopName f p.1 = some p.2 ∧ isSubstrOf needle p.2 = true := by
  obtain ⟨sid, hsid, hg⟩ := List.exists_of_findSome?_eq_some h
  cases hnm : stopName f sid with
  | none =>
    rw [hnm] at hg
    dsimp only at hg
    cases hg
  | some nm =>
    rw [hnm] at hg
    dsimp only at hg
    by_cases hsub : isSubstrOf needle nm
    · rw [if_pos hsub] at hg
      have hp : (sid, nm) = p := Option.some_injective _ hg
      rw [← hp]
      exact ⟨hsid, hnm, hsub⟩
    · rw [if_neg hsub] at hg
      cases hg

theorem mem_availableTerminalNames (f : Feed) (firstU lastU : List String)
    (nm : String) :
    nm ∈ availableTerminalNames f firstU lastU ↔
      ∃ sid ∈ firstU ++ lastU, stopName f sid = some nm := by
  unfold availableTerminalNames
  rw [(List.perm_insertionSort strLe _).mem_iff, mem_dedupFirst,
    List.mem_filterMap]

/-- C9: when the terminal substring (case-insensitively) occurs in no
terminal name at either the first-stop or the last-stop end, the call
raises the no-matching-terminal condition whose message lists exactly the
available terminal names; when it matches at exactly one end, that end's
matching terminal is used and no error is raised. -/
theorem branch_terminal_matching (f : Feed) (route : String) (dir : Nat)
    (needle : String) (service : String) (excl : Bool)
    (htr : tripsForService f route dir service ≠ []) :
    ((∀ sid ∈ dedupFirst ((terminalsFirst f (tripsForService f route dir service)).map
          (fun p => p.2)) ++
        dedupFirst ((terminalsLast f (tripsForService f route dir service)).map
          (fun p => p.2)),
        ∀ nm, stopName f sid = some nm → isSubstrOf needle nm = false) →
      getHeadwayDistBranch f route dir needle service none excl =
        BranchResult.noTerminal (availableTerminalNames f
          (dedupFirst ((terminalsFirst f (tripsForService f route dir service)).map
            (fun p => p.2)))
          (dedupFirst ((terminalsLast f (tripsForService f route dir service)).map
            (fun p => p.2)))) ∧
      ∀ nm, nm ∈ availableTerminalNames f
          (dedupFirst ((terminalsFirst f (tripsForService f route dir service)).map
            (fun p => p.2)))
          (dedupFirst ((terminalsLast f (tripsForService f route dir service)).map
            (fun p => p.2))) ↔
        ∃ sid ∈ dedupFirst ((terminalsFirst f (tripsForService f route dir service)).map
            (fun p => p.2)) ++
          dedupFirst ((terminalsLast f (tripsForService f route dir service)).map
            (fun p => p.2)),
          stopName f sid = some nm) ∧
    ((∃ sid ∈ dedupFirst ((terminalsFirst f (tripsForService f route dir service)).map
          (fun p => p.2)),
        ∃ nm, stopName f sid = some nm ∧ isSubstrOf needle nm = true) →
      (∀ sid ∈ dedupFirst ((terminalsLast f (tripsForService f route dir service)).map
          (fun p => p.2)),
        ∀ nm, stopName f sid = some nm → isSubstrOf needle nm = false) →
      ∃ tid tnm rows,
        getHeadwayDistBranch f route dir needle service none excl =
          BranchResult.ok BranchEnd.origin tid tnm rows ∧
        tid ∈ dedupFirst ((terminalsFirst f (tripsForService f route dir service)).map
          (fun p => p.2)) ∧
        stopName f tid = some tnm ∧ isSubstrOf needle tnm = true) ∧
    ((∀ sid ∈ dedupFirst ((terminalsFirst f (tripsForService f route dir service)).map
          (fun p => p.2)),
        ∀ nm, stopName f sid = some nm → isSubstrOf needle nm = false) →
      (∃ sid ∈ dedupFirst ((terminalsLast f (tripsForService f route dir service)).map
          (fun p => p.2)),
        ∃ nm, stopName f sid = some nm ∧ isSubstrOf needle nm = true) →
      ∃ tid tnm rows,
        getHeadwayDistBranch f route dir needle service none excl =
          BranchResult.ok BranchEnd.destination tid tnm rows ∧
        tid ∈ dedupFirst ((terminalsLast f (tripsForService f route dir service)).map
          (fun p => p.2)) ∧
        stopName f tid = some tnm ∧ isSubstrOf needle tnm = true) := by
  have hne : ¬ (tripsForService f route dir service).isEmpty = true := by
    simpa [List.isEmpty_iff] using htr
  refine ⟨?_, ?_, ?_⟩
  · intro hnone
    have hf : findTerminalMatch f needle
        (dedupFirst ((terminalsFirst f (tripsForService f route dir service)).map
          (fun p => p.2))) = none := by
      rw [findTerminalMatch_eq_none_iff]
      intro sid hsid nm hnm
      exact hnone sid (List.mem_append.mpr (Or.inl hsid)) nm hnm
    have hl : findTerminalMatch f needle
        (dedupFirst ((terminalsLast f (tripsForService f route dir service)).map
          (fun p => p.2))) = none := by
      rw [findTerminalMatch_eq_none_iff]
      intro sid hsid nm hnm
      exact hnone sid (List.mem_append.mpr (Or.inr hsid)) nm hnm
    constructor
    · unfold getHeadwayDistBranch
      rw [if_neg hne]
      simp only [hf, hl]
    · intro nm
      exact mem_availableTerminalNames f _ _ nm
  · intro hex hnonel
    have hl : findTerminalMatch f needle
        (dedupFirst ((terminalsLast f (tripsForService f route dir service)).map
          (fun p => p.2))) = none := by
      rw [findTerminalMatch_eq_none_iff]
      exact hnonel
    cases hfm : findTerminalMatch f needle
        (dedupFirst ((terminalsFirst f (tripsForService f route dir service)).map
          (fun p => p.2))) with
    | none =>
      exfalso
      obtain ⟨sid, hsid, nm, hnm, hsub⟩ := hex
      have := (findTerminalMatch_eq_none_iff f needle _).mp hfm sid hsid nm hnm
      rw [this] at hsub
      cases hsub
    | some fm =>
      obtain ⟨hfm1, hfm2, hfm3⟩ := findTerminalMatch_some_spec f needle _ fm hfm
      refine ⟨fm.1, fm.2,
        buildBranchRows (branchDepartures f (tripsForService f route dir service)
          BranchEnd.origin fm.1 none) excl, ?_, hfm1, hfm2, hfm3⟩
      unfold getHeadwayDistBranch
      rw [if_neg hne]
      simp only [hfm, hl]
      rfl
  · intro hnonef hex
    have hf : findTerminalMatch f needle
        (dedupFirst ((terminalsFirst f (tripsForService f route dir service)).map
          (fun p => p.2))) = none := by
      rw [findTerminalMatch_eq_none_iff]
      exact hnonef
    cases hlm : findTerminalMatch f needle
        (dedupFirst ((terminalsLast f (tripsForService f route dir service)).map
          (fun p => p.2))) with
    | none =>
      exfalso
      obtain ⟨sid, hsid, nm, hnm, hsub⟩ := hex
      have := (findTerminalMatch_eq_none_iff f needle _).mp hlm sid hsid nm hnm
      rw [this] at hsub
      cases hsub
    | some lm =>
      obtain ⟨hlm1, hlm2, hlm3⟩ := findTerminalMatch_some_spec f needle _ lm hlm
      refine ⟨lm.1, lm.2,
        buildBranchRows (branchDepartures f (tripsForService f route dir service)
          BranchEnd.destination lm.1 none) excl, ?_, hlm1, hlm2, hlm3⟩
      unfold getHeadwayDistBranch
      rw [if_neg hne]
      simp only [hf, hlm]
      rfl

/-- A single-trip feed: one Weekday trip on route A from the origin stop
to the Lefferts Blvd terminal. -/
def feedC10 : Feed :=
  { trips := [⟨"t1", "A", 0, "Weekday"⟩]
    stopTimes :=
      [⟨"t1", "O", 1, ⟨8, 0, 0⟩, ⟨8, 0, 0⟩⟩,
       ⟨"t1", "T", 2, ⟨8, 30, 0⟩, ⟨8, 30, 0⟩⟩]
    stops := [⟨"O", "Origin St", none⟩, ⟨"T", "Lefferts Blvd", none⟩] }

theorem branch_terminal_matching_witness :
    getHeadwayDistBranch feedC10 "A" 0 "Nowhere" "Weekday" none true =
      BranchResult.noTerminal ["Lefferts Blvd", "Origin St"] := by
  have h := (branch_terminal_matching feedC10 "A" 0 "Nowhere" "Weekday" true
    (by decide)).1 (by
      intro sid hsid nm hnm
      have he : dedupFirst ((terminalsFirst feedC10
            (tripsForService feedC10 "A" 0 "Weekday")).map (fun p => p.2)) ++
          dedupFirst ((terminalsLast feedC10
            (tripsForService feedC10 "A" 0 "Weekday")).map (fun p => p.2)) =
          ["O", "T"] := by decide
      rw [he] at hsid
      have hsid2 : sid = "O" ∨ sid = "T" := by simpa using hsid
      rcases hsid2 with h1 | h1 <;> subst h1
      · rw [show stopName feedC10 "O" = some "Origin St" from by decide] at hnm
        injection hnm with h2
        subst h2
        decide
      · rw [show stopName feedC10 "T" = some "Lefferts Blvd" from by decide] at hnm
        injection hnm with h2
        subst h2
        decide)
  rw [h.1]
  decide

theorem getHeadwayDistBranch_ok_rows (f : Feed) (route : String) (dir : Nat)
    (needle service : String) (excl : Bool) (e : BranchEnd)
    (tid tnm : String) (rows : List HeadwayRow)
    (h : getHeadwayDistBranch f route dir needle service none excl =
      BranchResult.ok e tid tnm rows) :
    rows = buildBranchRows
      (branchDepartures f (tripsForService f route dir service) e tid none)
      excl := by
  unfold getHeadwayDistBranch at h
  by_cases hemp : (tripsForService f route dir service).isEmpty
  · rw [if_pos hemp] at h
    exact BranchResult.noConfusion h
  · rw [if_neg hemp] at h
    cases hfm : findTerminalMatch f needle (dedupFirst ((terminalsFirst f
        (tripsForService f route dir service)).map (fun p => p.2))) <;>
    cases hlm : findTerminalMatch f needle (dedupFirst ((terminalsLast f
        (tripsForService f route dir service)).map (fun p => p.2))) <;>
    simp only [hfm, hlm] at h <;>
    first
      | exact BranchResult.noConfusion h
      | ((repeat' split at h) <;>
         (dsimp only [branchOk] at h
          simp only [BranchResult.ok.injEq] at h
          obtain ⟨he, htid, htnm, hrows⟩ := h
          subst he
          subst htid
          subst hrows
          rfl))

/-- C10: a branch-isolated request that resolves a terminal and yields at
most one qualifying departure returns the 24-row table whose every row
reports num_trains equal to that departure count (1 for a single
departure, 0 for none) with null headway statistics, regardless of the
departure's hour. -/
theorem single_departure_rows (f : Feed) (route : String) (dir : Nat)
    (needle service : String) (excl : Bool) (e : BranchEnd)
    (tid tnm : String) (rows : List HeadwayRow)
    (hok : getHeadwayDistBranch f route dir needle service none excl =
      BranchResult.ok e tid tnm rows)
    (hlen : (branchDepartures f (tripsForService f route dir service) e tid
      none).length ≤ 1) :
    rows = (List.range 24).map (fun hr =>
      ⟨hr, (branchDepartures f (tripsForService f route dir service) e tid
        none).length, none, none, none⟩) := by
  rw [getHeadwayDistBranch_ok_rows f route dir needle service excl e tid tnm
    rows hok]
  unfold buildBranchRows
  have hsl : (sortDepartures (branchDepartures f
      (tripsForService f route dir service) e tid none)).length =
      (branchDepartures f (tripsForService f route dir service) e tid
        none).length :=
    (List.perm_insertionSort timeLe _).length_eq
  rw [if_pos (by omega)]
  rcases Nat.le_one_iff_eq_zero_or_eq_one.mp hlen with h0 | h1
  · simp [hsl, h0]
  · simp [hsl, h1]

theorem single_departure_rows_witness :
    getHeadwayDistBranch feedC10 "A" 0 "Lefferts" "Weekday" none true =
      BranchResult.ok BranchEnd.destination "T" "Lefferts Blvd"
        ((List.range 24).map (fun hr => ⟨hr, 1, none, none, none⟩)) ∧
    (branchDepartures feedC10 (tripsForService feedC10 "A" 0 "Weekday")
      BranchEnd.destination "T" none).length = 1 ∧
    ((List.range 24).map (fun hr =>
        (⟨hr, 1, none, none, none⟩ : HeadwayRow))) =
      (List.range 24).map (fun hr =>
        ⟨hr, (branchDepartures feedC10 (tripsForService feedC10 "A" 0
          "Weekday") BranchEnd.destination "T" none).length,
          none, none, none⟩) :=
  ⟨by decide, by decide,
    single_departure_rows feedC10 "A" 0 "Lefferts" "Weekday" true
      BranchEnd.destination "T" "Lefferts Blvd" _ (by decide) (by decide)⟩

/-- The per-hour train counts a successful branch result reports. -/
def branchRowsNumTrains : BranchResult → Option (List Nat)
  | .ok _ _ _ rows => some (rows.map (fun r => r.numTrains))
  | _ => none

/-- Four Weekday trips on route A, departing the origin stop at 8:00,
8:10, 8:20 and 8:30, all ending at the Lefferts Blvd terminal. -/
def feedC5 : Feed :=
  { trips := [⟨"b1", "A", 0, "Weekday"⟩, ⟨"b2", "A", 0, "Weekday"⟩,
              ⟨"b3", "A", 0, "Weekday"⟩, ⟨"b4", "A", 0, "Weekday"⟩]
    stopTimes :=
      [⟨"b1", "O", 1, ⟨8, 0, 0⟩, ⟨8, 0, 0⟩⟩,
       ⟨"b1", "T", 2, ⟨8, 30, 0⟩, ⟨8, 30, 0⟩⟩,
       ⟨"b2", "O", 1, ⟨8, 10, 0⟩, ⟨8, 10, 0⟩⟩,
       ⟨"b2", "T", 2, ⟨8, 40, 0⟩, ⟨8, 40, 0⟩⟩,
       ⟨"b3", "O", 1, ⟨8, 20, 0⟩, ⟨8, 20, 0⟩⟩,
       ⟨"b3", "T", 2, ⟨8, 50, 0⟩, ⟨8, 50, 0⟩⟩,
       ⟨"b4", "O", 1, ⟨8, 30, 0⟩, ⟨8, 30, 0⟩⟩,
       ⟨"b4", "T", 2, ⟨9, 0, 0⟩, ⟨9, 0, 0⟩⟩]
    stops := [⟨"O", "Origin St", none⟩, ⟨"T", "Lefferts Blvd", none⟩] }

/-- C5: the branch-isolated table's per-hour train count is the length of
that hour's headway-gap list, not an independent departure count.  Four
trains depart in hour 8, yet the hour-8 row reports num_trains = 1 under
the default first/last-gap exclusion and 3 with exclusion off: the
exclusion flag changes the reported train count, and neither value is the
actual departure count 4. -/
theorem branch_num_trains_counts_gaps_eval :
    branchRowsNumTrains
        (getHeadwayDistBranch feedC5 "A" 0 "Lefferts" "Weekday" none true) =
      some ((List.range 24).map (fun h => if h = 8 then 1 else 0)) ∧
    branchRowsNumTrains
        (getHeadwayDistBranch feedC5 "A" 0 "Lefferts" "Weekday" none false) =
      some ((List.range 24).map (fun h => if h = 8 then 3 else 0)) ∧
    ((branchDepartures feedC5 (tripsForService feedC5 "A" 0 "Weekday")
        BranchEnd.destination "T" none).countP
      (fun t => t.hourOfDay == 8)) = 4 := by
  refine ⟨?_, ?_, ?_⟩ <;> decide

end Subway
